import Mathlib

/-!
# Verification of the KPI-Planning-Tool signaling layer

Shallow embedding of the server-side session directory (`src/signaling.ts`,
two protocol variants: the join-request *queue* model and the *single-slot*
offer model), the host-side update relay (`src/store.tsx`), and the
handshake-blob codec (`src/webrtc.ts`), together with proofs of the
specification's testable properties.

JavaScript `Map` objects are embedded as association lists (`List (String × α)`)
preserving insertion order; `Map.set` replaces in place or appends, `Map.get`
returns the first match, `Map.delete` removes the entry.  `Date.now()` is
passed in explicitly as a `now : Nat` millisecond timestamp.
-/

set_option autoImplicit false

namespace KPI

universe u v

/-- `Map.get` of a JS `Map`: first entry with the given key. -/
def jsGet {α : Type u} (m : List (String × α)) (k : String) : Option α :=
  match m with
  | [] => none
  | (k₁, v₁) :: rest => if k₁ = k then some v₁ else jsGet rest k

/-- `Map.set` of a JS `Map`: replace in place if the key is present,
append otherwise. -/
def jsSet {α : Type u} (m : List (String × α)) (k : String) (v : α) :
    List (String × α) :=
  match m with
  | [] => [(k, v)]
  | (k₁, v₁) :: rest =>
    if k₁ = k then (k, v) :: rest else (k₁, v₁) :: jsSet rest k v

/-- `Map.delete` of a JS `Map`: drop the entry with the given key. -/
def jsDelete {α : Type u} (m : List (String × α)) (k : String) :
    List (String × α) :=
  match m with
  | [] => []
  | (k₁, v₁) :: rest =>
    if k₁ = k then rest else (k₁, v₁) :: jsDelete rest k

/-- Keys of a JS `Map` are pairwise distinct (always true of a real `Map`;
our association lists only reach such states through `jsSet`/`jsDelete`). -/
def keysNodup {α : Type u} (m : List (String × α)) : Prop :=
  (m.map Prod.fst).Nodup

instance {α : Type u} (m : List (String × α)) : Decidable (keysNodup m) := by
  unfold keysNodup; infer_instance

@[simp] theorem jsGet_nil {α : Type u} (k : String) :
    jsGet ([] : List (String × α)) k = none := rfl

@[simp] theorem jsGet_cons {α : Type u} (k₁ : String) (v₁ : α)
    (rest : List (String × α)) (k : String) :
    jsGet ((k₁, v₁) :: rest) k = if k₁ = k then some v₁ else jsGet rest k := rfl

@[simp] theorem jsSet_nil {α : Type u} (k : String) (v : α) :
    jsSet ([] : List (String × α)) k v = [(k, v)] := rfl

@[simp] theorem jsSet_cons {α : Type u} (k₁ : String) (v₁ : α)
    (rest : List (String × α)) (k : String) (v : α) :
    jsSet ((k₁, v₁) :: rest) k v =
      if k₁ = k then (k, v) :: rest else (k₁, v₁) :: jsSet rest k v := rfl

@[simp] theorem jsDelete_nil {α : Type u} (k : String) :
    jsDelete ([] : List (String × α)) k = [] := rfl

@[simp] theorem jsDelete_cons {α : Type u} (k₁ : String) (v₁ : α)
    (rest : List (String × α)) (k : String) :
    jsDelete ((k₁, v₁) :: rest) k =
      if k₁ = k then rest else (k₁, v₁) :: jsDelete rest k := rfl

theorem jsGet_jsSet_self {α : Type u} (m : List (String × α)) (k : String)
    (v : α) : jsGet (jsSet m k v) k = some v := by
  induction m with
  | nil => simp [jsSet]
  | cons hd tl ih =>
    obtain ⟨k₁, v₁⟩ := hd
    by_cases h : k₁ = k <;> simp [jsSet, jsGet, h, ih]

theorem jsGet_jsSet_ne {α : Type u} (m : List (String × α)) (k k' : String)
    (v : α) (h : k ≠ k') : jsGet (jsSet m k v) k' = jsGet m k' := by
  induction m with
  | nil => simp [jsSet, jsGet, h]
  | cons hd tl ih =>
    obtain ⟨k₁, v₁⟩ := hd
    by_cases hk : k₁ = k
    · subst hk; simp [jsSet, jsGet, h, ih]
    · simp only [jsSet, if_neg hk, jsGet]
      by_cases hk' : k₁ = k' <;> simp [hk', ih]

theorem jsGet_eq_none_of_not_mem_keys {α : Type u} (m : List (String × α))
    (k : String) (h : k ∉ m.map Prod.fst) : jsGet m k = none := by
  induction m with
  | nil => rfl
  | cons hd tl ih =>
    obtain ⟨k₁, v₁⟩ := hd
    simp only [List.map_cons, List.mem_cons, not_or] at h
    simp only [jsGet, if_neg (fun hkk : k₁ = k => h.1 hkk.symm)]
    exact ih h.2

theorem jsGet_jsDelete_self {α : Type u} (m : List (String × α)) (k : String)
    (hm : keysNodup m) : jsGet (jsDelete m k) k = none := by
  induction m with
  | nil => simp [jsDelete]
  | cons hd tl ih =>
    obtain ⟨k₁, v₁⟩ := hd
    simp only [keysNodup, List.map_cons, List.nodup_cons] at hm
    by_cases h : k₁ = k
    · subst h
      simp only [jsDelete, if_pos rfl]
      exact jsGet_eq_none_of_not_mem_keys tl k₁ hm.1
    · simp only [jsDelete, if_neg h, jsGet, if_neg h]
      exact ih hm.2

theorem jsGet_jsDelete_ne {α : Type u} (m : List (String × α)) (k k' : String)
    (h : k ≠ k') : jsGet (jsDelete m k) k' = jsGet m k' := by
  induction m with
  | nil => simp [jsDelete]
  | cons hd tl ih =>
    obtain ⟨k₁, v₁⟩ := hd
    by_cases hk : k₁ = k
    · subst hk; simp [jsDelete, jsGet, h, ih]
    · simp only [jsDelete, if_neg hk, jsGet]
      by_cases hk' : k₁ = k' <;> simp [hk', ih]

theorem mem_keys_jsSet {α : Type u} (m : List (String × α)) (k a : String)
    (v : α) : a ∈ (jsSet m k v).map Prod.fst ↔ a ∈ m.map Prod.fst ∨ a = k := by
  induction m with
  | nil => simp [jsSet]
  | cons hd tl ih =>
    obtain ⟨k₁, v₁⟩ := hd
    by_cases h : k₁ = k
    · subst h; simp [jsSet]; tauto
    · simp only [jsSet, if_neg h, List.map_cons, List.mem_cons, ih]
      tauto

theorem keysNodup_jsSet {α : Type u} (m : List (String × α)) (k : String)
    (v : α) (hm : keysNodup m) : keysNodup (jsSet m k v) := by
  induction m with
  | nil => simp [jsSet, keysNodup]
  | cons hd tl ih =>
    obtain ⟨k₁, v₁⟩ := hd
    simp only [keysNodup, List.map_cons, List.nodup_cons] at hm
    by_cases h : k₁ = k
    · subst h
      simpa [jsSet, keysNodup] using hm
    · simp only [keysNodup, jsSet, if_neg h, List.map_cons, List.nodup_cons]
      refine ⟨?_, ih hm.2⟩
      rw [mem_keys_jsSet]
      rintro (hmem | rfl)
      · exact hm.1 hmem
      · exact h rfl

theorem mem_keys_jsDelete {α : Type u} (m : List (String × α)) (k a : String)
    (h : a ∈ (jsDelete m k).map Prod.fst) : a ∈ m.map Prod.fst := by
  induction m with
  | nil => exact absurd h (by simp)
  | cons hd tl ih =>
    obtain ⟨k₁, v₁⟩ := hd
    by_cases hk : k₁ = k
    · subst hk
      rw [jsDelete_cons, if_pos rfl] at h
      exact List.mem_cons_of_mem _ h
    · simp only [jsDelete_cons, if_neg hk, List.map_cons, List.mem_cons] at h ⊢
      tauto

theorem keysNodup_jsDelete {α : Type u} (m : List (String × α)) (k : String)
    (hm : keysNodup m) : keysNodup (jsDelete m k) := by
  induction m with
  | nil => simpa [jsDelete] using hm
  | cons hd tl ih =>
    obtain ⟨k₁, v₁⟩ := hd
    simp only [keysNodup, List.map_cons, List.nodup_cons] at hm
    by_cases h : k₁ = k
    · subst h; simpa [jsDelete, keysNodup] using hm.2
    · simp only [jsDelete, if_neg h, keysNodup, List.map_cons, List.nodup_cons]
      exact ⟨fun hmem => hm.1 (mem_keys_jsDelete tl k k₁ hmem), ih hm.2⟩

/-! ## Result types

`signaling.ts` returns polymorphic unions `{ ok: true, ... } | { ok: false,
error: string }`; we embed each shape as a tagged sum. -/

/-- Result of an operation returning `{ok:true} | {ok:false,error}`. -/
inductive OpResult where
  | ok
  | error (msg : String)
  deriving DecidableEq, Repr

/-- A `{peerId, offer}` pair as returned by `getJoinRequests`. -/
structure PendingReq where
  peerId : String
  offer : String
  deriving DecidableEq, Repr

/-- Result of `getJoinRequests`. -/
inductive ReqsResult where
  | ok (requests : List PendingReq)
  | error (msg : String)
  deriving DecidableEq, Repr

/-- Result of `getAnswer`. -/
inductive AnswerResult where
  | ok (answer : String)
  | error (msg : String)
  deriving DecidableEq, Repr

/-- Result of `joinSession` (single-slot model). -/
inductive JoinResult where
  | host
  | joiner (offer : String)
  | error (msg : String)
  deriving DecidableEq, Repr

/-- Result of `pollAnswer` (single-slot model): `{ok,peerId,answer}`,
`{ok,peerId:null}`, or `{ok:false,error}`. -/
inductive PollResult where
  | found (peerId : String) (answer : String)
  | noAnswer
  | error (msg : String)
  deriving DecidableEq, Repr

/-! ## Queue model (`signaling.ts`, join-request-queue variant) -/

namespace Queue

/-- `JoinRequest` record of the queue-model `signaling.ts`. -/
structure JoinRequest where
  peerId : String
  offer : String
  createdAt : Nat
  /-- Set to true once the host has seen this request. -/
  consumed : Bool
  deriving DecidableEq, Repr

/-- `Session` record of the queue-model `signaling.ts`. -/
structure Session where
  name : String
  hostId : String
  createdAt : Nat
  lastHostPoll : Nat
  joinRequests : List (String × JoinRequest)
  answers : List (String × String)
  deriving DecidableEq, Repr

/-- The module-level `sessions` map. -/
abbrev State := List (String × Session)

/-- The fresh record installed by `createSession`. -/
def Session.fresh (name hostId : String) (now : Nat) : Session :=
  { name := name, hostId := hostId, createdAt := now, lastHostPoll := now,
    joinRequests := [], answers := [] }

/-- `createSession(name, hostId)`: fails with name-taken unless the existing
session is stale (`now - lastHostPoll > 10_000`); otherwise installs a fresh
record (last-write-wins). -/
def createSession (st : State) (now : Nat) (name hostId : String) :
    OpResult × State :=
  match jsGet st name with
  | some existing =>
    -- Allow replacing a stale session (host stopped polling for >10s)
    if now - existing.lastHostPoll > 10000 then
      (.ok, jsSet st name (Session.fresh name hostId now))
    else
      (.error "Session name already taken", st)
  | none => (.ok, jsSet st name (Session.fresh name hostId now))

/-- `deleteSession(name, hostId)`: removes the session only when the stored
`hostId` matches; returns a bare boolean. -/
def deleteSession (st : State) (name hostId : String) : Bool × State :=
  match jsGet st name with
  | none => (false, st)
  | some session =>
    if session.hostId ≠ hostId then (false, st)
    else (true, jsDelete st name)

/-- `submitJoinRequest(sessionName, peerId, offer)`. -/
def submitJoinRequest (st : State) (now : Nat)
    (sessionName peerId offer : String) : OpResult × State :=
  match jsGet st sessionName with
  | none => (.error "Session not found", st)
  | some session =>
    let req : JoinRequest :=
      { peerId := peerId, offer := offer, createdAt := now, consumed := false }
    (.ok, jsSet st sessionName
      { session with joinRequests := jsSet session.joinRequests peerId req })

/-- Unconsumed requests, in insertion order, projected to `{peerId, offer}`
(the list the `getJoinRequests` loop pushes). -/
def pendingOf (reqs : List (String × JoinRequest)) : List PendingReq :=
  (reqs.filter (fun p => !p.2.consumed)).map
    (fun p => { peerId := p.2.peerId, offer := p.2.offer })

/-- Mark every request consumed (the loop sets `consumed := true` on each
unconsumed request; already-consumed ones keep the identical value). -/
def markConsumed (reqs : List (String × JoinRequest)) :
    List (String × JoinRequest) :=
  reqs.map (fun p => (p.1, { p.2 with consumed := true }))

/-- `getJoinRequests(sessionName, hostId)`: host-authenticated; refreshes
`lastHostPoll`, returns all unconsumed requests and marks them consumed. -/
def getJoinRequests (st : State) (now : Nat) (sessionName hostId : String) :
    ReqsResult × State :=
  match jsGet st sessionName with
  | none => (.error "Session not found", st)
  | some session =>
    if session.hostId ≠ hostId then (.error "Not the host", st)
    else
      let upd : Session :=
        { session with
          lastHostPoll := now
          joinRequests := markConsumed session.joinRequests }
      (.ok (pendingOf session.joinRequests), jsSet st sessionName upd)

/-- `submitAnswer(sessionName, peerId, answer)` (queue model). -/
def submitAnswer (st : State) (sessionName peerId answer : String) :
    OpResult × State :=
  match jsGet st sessionName with
  | none => (.error "Session not found", st)
  | some session =>
    (.ok, jsSet st sessionName
      { session with answers := jsSet session.answers peerId answer })

/-- `getAnswer(sessionName, peerId)`: returns and deletes the stored answer
together with the peer's join request.  JS `if (!answer)` also fires on the
empty string, so an empty stored answer behaves like a missing one. -/
def getAnswer (st : State) (sessionName peerId : String) :
    AnswerResult × State :=
  match jsGet st sessionName with
  | none => (.error "Session not found", st)
  | some session =>
    match jsGet session.answers peerId with
    | none => (.error "No answer yet", st)
    | some answer =>
      if answer = "" then (.error "No answer yet", st)
      else
        (.ok answer,
         jsSet st sessionName
           { session with
             answers := jsDelete session.answers peerId,
             joinRequests := jsDelete session.joinRequests peerId })

end Queue

/-! ## Single-slot model (`signaling.ts`, pre-created-offer variant) -/

namespace Slot

/-- `Session` record of the single-slot `signaling.ts`: `currentOffer` is the
host's pre-created offer (`null` once consumed), `pendingAnswer` the joiner's
answer waiting for pickup. -/
structure Session where
  name : String
  hostId : String
  createdAt : Nat
  lastHostPoll : Nat
  currentOffer : Option String
  pendingAnswer : Option (String × String)
  deriving DecidableEq, Repr

/-- The module-level `sessions` map. -/
abbrev State := List (String × Session)

/-- `joinSession(name)`: absent session → caller becomes host; stale session
→ deleted, caller becomes host; existing truthy `currentOffer` → consumed and
returned; otherwise busy.  JS `if (existing.currentOffer)` is false both for
`null` and for the empty string. -/
def joinSession (st : State) (now : Nat) (name : String) :
    JoinResult × State :=
  match jsGet st name with
  | none => (.host, st)
  | some existing =>
    -- Session exists but host stopped polling (stale) — take over
    if now - existing.lastHostPoll > 10000 then
      (.host, jsDelete st name)
    else
      match existing.currentOffer with
      | some offer =>
        if offer ≠ "" then
          (.joiner offer, jsSet st name { existing with currentOffer := none })
        else
          (.error "Session busy, try again", st)
      | none => (.error "Session busy, try again", st)

/-- The fresh record installed by `createSession`. -/
def Session.fresh (name hostId offer : String) (now : Nat) : Session :=
  { name := name, hostId := hostId, createdAt := now, lastHostPoll := now,
    currentOffer := some offer, pendingAnswer := none }

/-- `createSession(name, hostId, offer)` (single-slot model). -/
def createSession (st : State) (now : Nat) (name hostId offer : String) :
    OpResult × State :=
  match jsGet st name with
  | some existing =>
    if now - existing.lastHostPoll > 10000 then
      (.ok, jsSet st name (Session.fresh name hostId offer now))
    else
      (.error "Session name already taken", st)
  | none => (.ok, jsSet st name (Session.fresh name hostId offer now))

/-- `submitAnswer(name, peerId, answer)`: unconditionally overwrites the
single `pendingAnswer` slot. -/
def submitAnswer (st : State) (name peerId answer : String) :
    OpResult × State :=
  match jsGet st name with
  | none => (.error "Session not found", st)
  | some session =>
    (.ok, jsSet st name
      { session with pendingAnswer := some (peerId, answer) })

/-- `pollAnswer(name, hostId)`: host-authenticated; refreshes `lastHostPoll`;
returns and clears the pending answer, or `peerId: null` when none. -/
def pollAnswer (st : State) (now : Nat) (name hostId : String) :
    PollResult × State :=
  match jsGet st name with
  | none => (.error "Session not found", st)
  | some session =>
    if session.hostId ≠ hostId then (.error "Not the host", st)
    else
      let session := { session with lastHostPoll := now }
      match session.pendingAnswer with
      | some (peerId, answer) =>
        (.found peerId answer,
         jsSet st name { session with pendingAnswer := none })
      | none => (.noAnswer, jsSet st name session)

/-- `replaceOffer(name, hostId, offer)`. -/
def replaceOffer (st : State) (name hostId offer : String) :
    OpResult × State :=
  match jsGet st name with
  | none => (.error "Session not found", st)
  | some session =>
    if session.hostId ≠ hostId then (.error "Not the host", st)
    else (.ok, jsSet st name { session with currentOffer := some offer })

/-- `deleteSession(name, hostId)` (textually identical to the queue model's). -/
def deleteSession (st : State) (name hostId : String) : Bool × State :=
  match jsGet st name with
  | none => (false, st)
  | some session =>
    if session.hostId ≠ hostId then (false, st)
    else (true, jsDelete st name)

end Slot

/-! ## Host-side update relay (`store.tsx`) -/

namespace Relay

/-- An `RTCDataChannel`, restricted to the field the relay consults. -/
structure DataChannel where
  readyState : String
  deriving DecidableEq, Repr

/-- A Peer Registry entry (`PeerEntry` in `store.tsx`), restricted to the
fields the relay reads. -/
structure PeerEntry where
  peerId : String
  dc : Option DataChannel
  deriving DecidableEq, Repr

/-- A yjs update payload (opaque bytes). -/
abbrev Update := List Nat

/-- Observable effects of the relay handlers: `Y.applyUpdate(doc, data,
origin)` and `peer.dc.send(data)`. -/
inductive Effect where
  | applyUpdate (data : Update) (origin : String)
  | send (peerId : String) (data : Update)
  deriving DecidableEq, Repr

/-- `broadcastUpdate(update, excludePeerId?)`: sends to every registry entry
whose data channel is open, skipping `excludePeerId`. -/
def broadcastUpdate (peers : List (String × PeerEntry)) (update : Update)
    (excludePeerId : Option String) : List Effect :=
  peers.filterMap (fun p =>
    if some p.1 = excludePeerId then none
    else
      match p.2.dc with
      | some dc =>
        if dc.readyState = "open" then some (.send p.1 update) else none
      | none => none)

/-- `makeHostOnMessage(fromPeerId)`: the host's per-peer data-channel message
handler — apply to the local doc tagged "remote", then relay to all OTHER
peers. -/
def makeHostOnMessage (peers : List (String × PeerEntry)) (fromPeerId : String)
    (data : Update) : List Effect :=
  .applyUpdate data "remote" :: broadcastUpdate peers data (some fromPeerId)

/-- The joiner's data-channel message handler
(`(data) => Y.applyUpdate(doc, data, "remote")`): apply only, no relay. -/
def joinerOnMessage (data : Update) : List Effect :=
  [.applyUpdate data "remote"]

/-- The `doc.on("update")` handler: skip updates tagged "remote", broadcast
locally-originated ones with no peer excluded. -/
def onDocUpdate (peers : List (String × PeerEntry)) (update : Update)
    (origin : String) : List Effect :=
  if origin = "remote" then [] else broadcastUpdate peers update none

/-- An entry's data channel is non-null and in the `"open"` state. -/
def dcOpen (e : PeerEntry) : Prop :=
  ∃ dc, e.dc = some dc ∧ dc.readyState = "open"

instance (e : PeerEntry) : Decidable (dcOpen e) := by
  unfold dcOpen
  match e with
  | ⟨_, none⟩ => exact .isFalse (by simp)
  | ⟨_, some dc⟩ => exact decidable_of_iff (dc.readyState = "open") (by simp)

theorem send_mem_broadcastUpdate (peers : List (String × PeerEntry))
    (update : Update) (ex : Option String) (pid : String) (d : Update) :
    Effect.send pid d ∈ broadcastUpdate peers update ex ↔
      d = update ∧ some pid ≠ ex ∧
        ∃ e, (pid, e) ∈ peers ∧ dcOpen e := by
  unfold broadcastUpdate
  rw [List.mem_filterMap]
  constructor
  · rintro ⟨⟨k, e⟩, hmem, heq⟩
    by_cases hex : some k = ex
    · simp [hex] at heq
    · simp only [if_neg hex] at heq
      match hdc : e.dc with
      | none => simp [hdc] at heq
      | some dc =>
        simp only [hdc] at heq
        by_cases hop : dc.readyState = "open"
        · simp only [if_pos hop, Option.some_inj, Effect.send.injEq] at heq
          obtain ⟨rfl, rfl⟩ := heq
          exact ⟨rfl, hex, e, hmem, dc, hdc, hop⟩
        · simp [hop] at heq
  · rintro ⟨rfl, hex, e, hmem, dc, hdc, hop⟩
    exact ⟨(pid, e), hmem, by simp [hex, hdc, hop]⟩

theorem applyUpdate_not_mem_broadcastUpdate
    (peers : List (String × PeerEntry)) (update : Update) (ex : Option String)
    (d : Update) (origin : String) :
    Effect.applyUpdate d origin ∉ broadcastUpdate peers update ex := by
  unfold broadcastUpdate
  rw [List.mem_filterMap]
  rintro ⟨⟨k, e⟩, _, heq⟩
  by_cases hex : some k = ex
  · simp [hex] at heq
  · simp only [if_neg hex] at heq
    match hdc : e.dc with
    | none => simp [hdc] at heq
    | some dc =>
      simp only [hdc] at heq
      by_cases hop : dc.readyState = "open" <;> simp [hop] at heq

end Relay

/-! ## Operation traces over the queue-model directory -/

namespace Queue

/-- The queue-model directory operations other than `createSession`: an
arbitrary later call trace against the same store. -/
inductive Op where
  | submitJoinRequest (now : Nat) (sessionName peerId offer : String)
  | getJoinRequests (now : Nat) (sessionName hostId : String)
  | submitAnswer (sessionName peerId answer : String)
  | getAnswer (sessionName peerId : String)
  | deleteSession (name hostId : String)
  deriving DecidableEq, Repr

/-- State effect of one operation (results discarded). -/
def applyOp (st : State) : Op → State
  | .submitJoinRequest now n p o => (submitJoinRequest st now n p o).2
  | .getJoinRequests now n h => (getJoinRequests st now n h).2
  | .submitAnswer n p a => (submitAnswer st n p a).2
  | .getAnswer n p => (getAnswer st n p).2
  | .deleteSession n h => (deleteSession st n h).2

/-- State after a trace of operations. -/
def applyOps (st : State) (ops : List Op) : State :=
  ops.foldl applyOp st

/-- "No session stored under `name` has host token `h`". -/
def hostNot (st : State) (name h : String) : Prop :=
  ∀ s, jsGet st name = some s → s.hostId ≠ h

theorem hostNot_jsSet (st : State) (name h n : String) (s upd : Session)
    (hget : jsGet st n = some s) (hh : upd.hostId = s.hostId)
    (hn : hostNot st name h) : hostNot (jsSet st n upd) name h := by
  intro s' hget'
  by_cases hake : n = name
  · subst hake
    rw [jsGet_jsSet_self] at hget'
    cases hget'
    rw [hh]
    exact hn s hget
  · rw [jsGet_jsSet_ne st n name upd hake] at hget'
    exact hn s' hget'

theorem hostNot_jsDelete (st : State) (name h n : String)
    (hwf : keysNodup st) (hn : hostNot st name h) :
    hostNot (jsDelete st n) name h := by
  intro s' hget'
  by_cases hake : n = name
  · subst hake
    rw [jsGet_jsDelete_self st n hwf] at hget'
    cases hget'
  · rw [jsGet_jsDelete_ne st n name hake] at hget'
    exact hn s' hget'

/-- Every non-`createSession` operation leaves the store alone, overwrites
one name with a record carrying the same `hostId`, or deletes one name. -/
theorem applyOp_shape (st : State) (op : Op) :
    applyOp st op = st ∨
    (∃ n s upd, jsGet st n = some s ∧ Session.hostId upd = s.hostId ∧
      applyOp st op = jsSet st n upd) ∨
    (∃ n, applyOp st op = jsDelete st n) := by
  cases op with
  | submitJoinRequest now n p o =>
    cases hget : jsGet st n with
    | none => exact Or.inl (by simp [applyOp, submitJoinRequest, hget])
    | some s =>
      exact Or.inr (Or.inl ⟨n, s,
        { s with joinRequests := jsSet s.joinRequests p ⟨p, o, now, false⟩ },
        hget, rfl, by simp [applyOp, submitJoinRequest, hget]⟩)
  | getJoinRequests now n h =>
    cases hget : jsGet st n with
    | none => exact Or.inl (by simp [applyOp, getJoinRequests, hget])
    | some s =>
      by_cases hh : s.hostId ≠ h
      · exact Or.inl (by simp [applyOp, getJoinRequests, hget, hh])
      · exact Or.inr (Or.inl ⟨n, s,
          { s with lastHostPoll := now,
                   joinRequests := markConsumed s.joinRequests },
          hget, rfl, by simp [applyOp, getJoinRequests, hget, hh]⟩)
  | submitAnswer n p a =>
    cases hget : jsGet st n with
    | none => exact Or.inl (by simp [applyOp, submitAnswer, hget])
    | some s =>
      exact Or.inr (Or.inl ⟨n, s,
        { s with answers := jsSet s.answers p a },
        hget, rfl, by simp [applyOp, submitAnswer, hget]⟩)
  | getAnswer n p =>
    cases hget : jsGet st n with
    | none => exact Or.inl (by simp [applyOp, getAnswer, hget])
    | some s =>
      cases hans : jsGet s.answers p with
      | none => exact Or.inl (by simp [applyOp, getAnswer, hget, hans])
      | some a =>
        by_cases ha : a = ""
        · exact Or.inl (by simp [applyOp, getAnswer, hget, hans, ha])
        · exact Or.inr (Or.inl ⟨n, s,
            { s with answers := jsDelete s.answers p,
                     joinRequests := jsDelete s.joinRequests p },
            hget, rfl, by simp [applyOp, getAnswer, hget, hans, ha]⟩)
  | deleteSession n h =>
    cases hget : jsGet st n with
    | none => exact Or.inl (by simp [applyOp, deleteSession, hget])
    | some s =>
      by_cases hh : s.hostId ≠ h
      · exact Or.inl (by simp [applyOp, deleteSession, hget, hh])
      · exact Or.inr (Or.inr ⟨n, by simp [applyOp, deleteSession, hget, hh]⟩)

theorem keysNodup_applyOp (st : State) (op : Op) (hwf : keysNodup st) :
    keysNodup (applyOp st op) := by
  rcases applyOp_shape st op with heq | ⟨n, s, upd, _, _, heq⟩ | ⟨n, heq⟩
  · rw [heq]; exact hwf
  · rw [heq]; exact keysNodup_jsSet st n upd hwf
  · rw [heq]; exact keysNodup_jsDelete st n hwf

theorem hostNot_applyOp (st : State) (op : Op) (name h : String)
    (hwf : keysNodup st) (hn : hostNot st name h) :
    hostNot (applyOp st op) name h := by
  rcases applyOp_shape st op with heq | ⟨n, s, upd, hget, hh, heq⟩ | ⟨n, heq⟩
  · rw [heq]; exact hn
  · rw [heq]; exact hostNot_jsSet st name h n s upd hget hh hn
  · rw [heq]; exact hostNot_jsDelete st name h n hwf hn

theorem hostNot_applyOps (st : State) (ops : List Op) (name h : String)
    (hwf : keysNodup st) (hn : hostNot st name h) :
    hostNot (applyOps st ops) name h := by
  induction ops generalizing st with
  | nil => exact hn
  | cons op rest ih =>
    exact ih (applyOp st op) (keysNodup_applyOp st op hwf)
      (hostNot_applyOp st op name h hwf hn)

/-- `deleteSession` with a token no stored session holds returns `false` and
leaves the store unchanged. -/
theorem deleteSession_of_hostNot (st : State) (name h : String)
    (hn : hostNot st name h) : deleteSession st name h = (false, st) := by
  unfold deleteSession
  match hget : jsGet st name with
  | none => rfl
  | some s =>
    have := hn s hget
    simp [this]

/-- A consumed-marked queue has no pending requests. -/
theorem pendingOf_markConsumed (reqs : List (String × JoinRequest)) :
    pendingOf (markConsumed reqs) = [] := by
  unfold pendingOf markConsumed
  induction reqs with
  | nil => rfl
  | cons hd tl ih => simpa using ih

end Queue

/-! ## Handshake-blob codec (`webrtc.ts` `encode`/`decode`)

`encode(blob)` is `btoa(JSON.stringify(blob))` and `decode(str)` is
`JSON.parse(atob(str))` wrapped in a try/catch that rethrows
`Error("Invalid signaling data")`.  `btoa`, `atob`, `JSON.stringify` and
`JSON.parse` are platform built-ins, not repository code; they are modelled
from their standard behaviour below.  JS strings are embedded as lists of
UTF-16 code units (`List Nat`). -/

/-- Modelled from the spec: the base64 alphabet used by `btoa`/`atob`
(`A–Z`, `a–z`, `0–9`, `+`, `/` as code units). -/
def b64alphaList : List Nat :=
  [65, 66, 67, 68, 69, 70, 71, 72, 73, 74, 75, 76, 77, 78, 79, 80, 81, 82,
   83, 84, 85, 86, 87, 88, 89, 90,
   97, 98, 99, 100, 101, 102, 103, 104, 105, 106, 107, 108, 109, 110, 111,
   112, 113, 114, 115, 116, 117, 118, 119, 120, 121, 122,
   48, 49, 50, 51, 52, 53, 54, 55, 56, 57, 43, 47]

/-- Character for a six-bit group. -/
def b64alpha (s : Nat) : Nat := b64alphaList.getD s 0

/-- Six-bit group for a character, `none` when not in the alphabet. -/
def b64index (c : Nat) : Option Nat := b64alphaList.findIdx? (· = c)

/-- Modelled from the spec: `btoa` body — encode byte triples into four
alphabet characters, with `=` padding (code 61) for a 1- or 2-byte tail. -/
def btoaBytes : List Nat → List Nat
  | [] => []
  | [x] => [b64alpha (x / 4), b64alpha (x % 4 * 16), 61, 61]
  | [x, y] => [b64alpha (x / 4), b64alpha (x % 4 * 16 + y / 16),
               b64alpha (y % 16 * 4), 61]
  | x :: y :: z :: rest =>
    b64alpha (x / 4) :: b64alpha (x % 4 * 16 + y / 16) ::
    b64alpha (y % 16 * 4 + z / 64) :: b64alpha (z % 64) :: btoaBytes rest

/-- Modelled from the spec: `btoa(s)` — fails (throws
`InvalidCharacterError`, embedded as `none`) when any code unit exceeds
255, otherwise base64-encodes the units as bytes. -/
def btoa (s : List Nat) : Option (List Nat) :=
  if s.all (· < 256) then some (btoaBytes s) else none

/-- Modelled from the spec: `atob` body — decode four-character groups,
accepting `=`-padding (or an unpadded 2- or 3-character tail) only at the
end; any character outside the alphabet fails.  (Whitespace tolerance and
leftover-bit checking of the forgiving-base64 algorithm are omitted; they
are irrelevant to the claims, which only evaluate `atob` on `btoa`
output or fold every failure into one error.) -/
def atobChunks : List Nat → Option (List Nat)
  | [] => some []
  | [a, b] =>
    match b64index a, b64index b with
    | some sa, some sb => some [sa * 4 + sb / 16]
    | _, _ => none
  | [a, b, c] =>
    match b64index a, b64index b, b64index c with
    | some sa, some sb, some sc =>
      some [sa * 4 + sb / 16, sb % 16 * 16 + sc / 4]
    | _, _, _ => none
  | a :: b :: c :: d :: rest =>
    if c = 61 ∧ d = 61 ∧ rest = [] then
      match b64index a, b64index b with
      | some sa, some sb => some [sa * 4 + sb / 16]
      | _, _ => none
    else if d = 61 ∧ rest = [] then
      match b64index a, b64index b, b64index c with
      | some sa, some sb, some sc =>
        some [sa * 4 + sb / 16, sb % 16 * 16 + sc / 4]
      | _, _, _ => none
    else
      match b64index a, b64index b, b64index c, b64index d with
      | some sa, some sb, some sc, some sd =>
        match atobChunks rest with
        | some tail =>
          some ((sa * 4 + sb / 16) :: (sb % 16 * 16 + sc / 4) ::
            (sc % 4 * 64 + sd) :: tail)
        | none => none
      | _, _, _, _ => none
  | [_] => none

/-- Modelled from the spec: `atob(s)` (throws `InvalidCharacterError` on
malformed input, embedded as `none`). -/
def atob (s : List Nat) : Option (List Nat) := atobChunks s

theorem b64index_b64alpha (s : Nat) (h : s < 64) :
    b64index (b64alpha s) = some s := by
  have : ∀ t : Fin 64, b64index (b64alpha t.val) = some t.val := by decide
  exact this ⟨s, h⟩

theorem b64alpha_ne_pad (s : Nat) (h : s < 64) : b64alpha s ≠ 61 := by
  have : ∀ t : Fin 64, b64alpha t.val ≠ 61 := by decide
  exact this ⟨s, h⟩

theorem atobChunks_btoaBytes (bytes : List Nat)
    (h : ∀ b ∈ bytes, b < 256) : atobChunks (btoaBytes bytes) = some bytes := by
  induction bytes using btoaBytes.induct with
  | case1 => rfl
  | case2 x =>
    have hx : x < 256 := h x (by simp)
    have h₁ : x / 4 < 64 := by omega
    have h₂ : x % 4 * 16 < 64 := by omega
    simp only [btoaBytes, atobChunks, b64alpha_ne_pad _ h₁, if_pos,
      b64index_b64alpha _ h₁, b64index_b64alpha _ h₂]
    simp only [and_self, if_true, true_and, if_pos rfl]
    congr 1
    congr 1
    omega
  | case3 x y =>
    have hx : x < 256 := h x (by simp)
    have hy : y < 256 := h y (by simp)
    have h₁ : x / 4 < 64 := by omega
    have h₂ : x % 4 * 16 + y / 16 < 64 := by omega
    have h₃ : y % 16 * 4 < 64 := by omega
    have hc : b64alpha (y % 16 * 4) ≠ 61 := b64alpha_ne_pad _ h₃
    simp only [btoaBytes, atobChunks]
    rw [if_neg (by simp [hc]), if_pos (by simp)]
    rw [b64index_b64alpha _ h₁, b64index_b64alpha _ h₂,
      b64index_b64alpha _ h₃]
    simp only [Option.some_inj, List.cons.injEq, and_true]
    omega
  | case4 x y z rest ih =>
    have hx : x < 256 := h x (by simp)
    have hy : y < 256 := h y (by simp)
    have hz : z < 256 := h z (by simp)
    have h₁ : x / 4 < 64 := by omega
    have h₂ : x % 4 * 16 + y / 16 < 64 := by omega
    have h₃ : y % 16 * 4 + z / 64 < 64 := by omega
    have h₄ : z % 64 < 64 := by omega
    have hc : b64alpha (y % 16 * 4 + z / 64) ≠ 61 := b64alpha_ne_pad _ h₃
    have hd : b64alpha (z % 64) ≠ 61 := b64alpha_ne_pad _ h₄
    have hrest : ∀ b ∈ rest, b < 256 := fun b hb => h b (by simp [hb])
    simp only [btoaBytes, atobChunks]
    rw [if_neg (by simp [hc]), if_neg (by simp [hd])]
    rw [b64index_b64alpha _ h₁, b64index_b64alpha _ h₂,
      b64index_b64alpha _ h₃, b64index_b64alpha _ h₄, ih hrest]
    simp only [Option.some_inj, List.cons.injEq, and_true]
    omega

theorem atob_btoa (s : List Nat) (h : ∀ b ∈ s, b < 256) :
    btoa s = some (btoaBytes s) ∧ atob (btoaBytes s) = some s := by
  constructor
  · unfold btoa
    rw [if_pos]
    simp only [List.all_eq_true, decide_eq_true_eq]
    exact h
  · exact atobChunks_btoaBytes s h

/-! ### JSON values, `JSON.stringify` and `JSON.parse`

Modelled from the spec: JSON values with integer-only numbers (the only
numeric field in a signaling blob is the integer `sdpMLineIndex`; general
floating-point numbers are out of scope).  Strings are lists of UTF-16 code
units. -/

inductive Json where
  | null
  | bool (b : Bool)
  | num (n : Int)
  | str (s : List Nat)
  | arr (elems : List Json)
  | obj (fields : List (List Nat × Json))

/-- Lower-case hexadecimal digit character. -/
def hexDigit (n : Nat) : Nat :=
  if n < 10 then 48 + n else 87 + n

/-- Modelled from the spec: `JSON.stringify` string escaping — `"` and `\`
get a backslash, the named control escapes are used for 8/9/10/12/13, other
control characters become `\u00XX`, everything else is emitted verbatim. -/
def escapeUnit (u : Nat) : List Nat :=
  if u = 34 then [92, 34]
  else if u = 92 then [92, 92]
  else if u = 8 then [92, 98]
  else if u = 9 then [92, 116]
  else if u = 10 then [92, 110]
  else if u = 12 then [92, 102]
  else if u = 13 then [92, 114]
  else if u < 32 then [92, 117, 48, 48, hexDigit (u / 16), hexDigit (u % 16)]
  else [u]

def escapeStr (s : List Nat) : List Nat := (s.map escapeUnit).flatten

/-- A JSON string literal: quote, escaped body, quote. -/
def stringifyString (s : List Nat) : List Nat := 34 :: (escapeStr s ++ [34])

/-- Decimal digits of a natural number, most significant first. -/
def natDigits (n : Nat) : List Nat :=
  if n < 10 then [48 + n]
  else natDigits (n / 10) ++ [48 + n % 10]
termination_by n
decreasing_by exact Nat.div_lt_self (by omega) (by omega)

/-- Modelled from the spec: `JSON.stringify` of an integer. -/
def stringifyInt (n : Int) : List Nat :=
  if n < 0 then 45 :: natDigits (-n).toNat else natDigits n.toNat

mutual

/-- Modelled from the spec: `JSON.stringify` (no indentation argument —
punctuation only, no whitespace). -/
def stringify : Json → List Nat
  | .null => [110, 117, 108, 108]
  | .bool true => [116, 114, 117, 101]
  | .bool false => [102, 97, 108, 115, 101]
  | .num n => stringifyInt n
  | .str s => stringifyString s
  | .arr elems => 91 :: (stringifyElems elems ++ [93])
  | .obj fields => 123 :: (stringifyFields fields ++ [125])

/-- Comma-separated array elements. -/
def stringifyElems : List Json → List Nat
  | [] => []
  | [j] => stringify j
  | j :: rest => stringify j ++ 44 :: stringifyElems rest

/-- Comma-separated `"key":value` object members. -/
def stringifyFields : List (List Nat × Json) → List Nat
  | [] => []
  | [(k, v)] => stringifyString k ++ 58 :: stringify v
  | (k, v) :: rest =>
    stringifyString k ++ 58 :: stringify v ++ 44 :: stringifyFields rest

end

/-- JSON whitespace. -/
def isWs (c : Nat) : Bool := c = 32 || c = 9 || c = 10 || c = 13

def skipWs : List Nat → List Nat
  | [] => []
  | c :: rest => if isWs c then skipWs rest else c :: rest

/-- Value of a hexadecimal digit character. -/
def hexVal (c : Nat) : Option Nat :=
  if 48 ≤ c ∧ c ≤ 57 then some (c - 48)
  else if 97 ≤ c ∧ c ≤ 102 then some (c - 87)
  else if 65 ≤ c ∧ c ≤ 70 then some (c - 55)
  else none

/-- The character a single-letter JSON escape stands for. -/
def escChar (e : Nat) : Option Nat :=
  if e = 34 then some 34
  else if e = 92 then some 92
  else if e = 47 then some 47
  else if e = 98 then some 8
  else if e = 102 then some 12
  else if e = 110 then some 10
  else if e = 114 then some 13
  else if e = 116 then some 9
  else none

mutual

/-- Parse a JSON string body after the opening quote; returns the decoded
units and the input after the closing quote. -/
def parseStringBody : List Nat → Option (List Nat × List Nat)
  | [] => none
  | c :: rest =>
    if c = 34 then some ([], rest)
    else if c = 92 then parseEscape rest
    else if c < 32 then none
    else
      match parseStringBody rest with
      | some (s, rem) => some (c :: s, rem)
      | none => none
termination_by l => l.length

/-- Parse what follows a backslash inside a string body. -/
def parseEscape : List Nat → Option (List Nat × List Nat)
  | [] => none
  | e :: rest =>
    if e = 117 then
      match rest with
      | h₁ :: h₂ :: h₃ :: h₄ :: rest₂ =>
        match hexVal h₁, hexVal h₂, hexVal h₃, hexVal h₄ with
        | some v₁, some v₂, some v₃, some v₄ =>
          match parseStringBody rest₂ with
          | some (s, rem) =>
            some ((v₁ * 4096 + v₂ * 256 + v₃ * 16 + v₄) :: s, rem)
          | none => none
        | _, _, _, _ => none
      | _ => none
    else
      match escChar e with
      | some u =>
        match parseStringBody rest with
        | some (s, rem) => some (u :: s, rem)
        | none => none
      | none => none
termination_by l => l.length

end

/-- Consume a run of decimal digits, accumulating their value. -/
def parseDigits : List Nat → Nat → Nat × List Nat
  | [], acc => (acc, [])
  | c :: rest, acc =>
    if 48 ≤ c ∧ c ≤ 57 then parseDigits rest (acc * 10 + (c - 48))
    else (acc, c :: rest)

/-- Parse a JSON number (integers only; fractions and exponents, which never
occur in a signaling blob, are not modelled). -/
def parseNumber (l : List Nat) : Option (Json × List Nat) :=
  match l with
  | [] => none
  | c :: rest =>
    if c = 45 then
      match rest with
      | [] => none
      | d :: _ =>
        if 48 ≤ d ∧ d ≤ 57 then
          some (.num (-((parseDigits rest 0).1 : Int)), (parseDigits rest 0).2)
        else none
    else if 48 ≤ c ∧ c ≤ 57 then
      some (.num ((parseDigits l 0).1 : Int), (parseDigits l 0).2)
    else none

mutual

/-- Modelled from the spec: the recursive-descent core of `JSON.parse`.
The fuel argument only bounds recursion depth; `parseJson` supplies more
fuel than any input can consume. -/
def parseValue : Nat → List Nat → Option (Json × List Nat)
  | 0, _ => none
  | fuel + 1, l =>
    match skipWs l with
    | [] => none
    | c :: rest =>
      if c = 110 then
        match rest with
        | 117 :: 108 :: 108 :: rem => some (.null, rem)
        | _ => none
      else if c = 116 then
        match rest with
        | 114 :: 117 :: 101 :: rem => some (.bool true, rem)
        | _ => none
      else if c = 102 then
        match rest with
        | 97 :: 108 :: 115 :: 101 :: rem => some (.bool false, rem)
        | _ => none
      else if c = 34 then
        match parseStringBody rest with
        | some (s, rem) => some (.str s, rem)
        | none => none
      else if c = 91 then
        match skipWs rest with
        | 93 :: rem => some (.arr [], rem)
        | _ => parseElems fuel rest []
      else if c = 123 then
        match skipWs rest with
        | 125 :: rem => some (.obj [], rem)
        | _ => parseFields fuel rest []
      else parseNumber (c :: rest)

/-- Parse the elements of a non-empty array after `[`. -/
def parseElems : Nat → List Nat → List Json → Option (Json × List Nat)
  | 0, _, _ => none
  | fuel + 1, l, acc =>
    match parseValue fuel l with
    | none => none
    | some (v, rem) =>
      match skipWs rem with
      | 44 :: rem₂ => parseElems fuel rem₂ (acc ++ [v])
      | 93 :: rem₂ => some (.arr (acc ++ [v]), rem₂)
      | _ => none

/-- Parse the members of a non-empty object after `{`. -/
def parseFields : Nat → List Nat → List (List Nat × Json) →
    Option (Json × List Nat)
  | 0, _, _ => none
  | fuel + 1, l, acc =>
    match skipWs l with
    | 34 :: rest =>
      match parseStringBody rest with
      | none => none
      | some (k, rem) =>
        match skipWs rem with
        | 58 :: rem₂ =>
          match parseValue fuel rem₂ with
          | none => none
          | some (v, rem₃) =>
            match skipWs rem₃ with
            | 44 :: rem₄ => parseFields fuel rem₄ (acc ++ [(k, v)])
            | 125 :: rem₄ => some (.obj (acc ++ [(k, v)]), rem₄)
            | _ => none
        | _ => none
    | _ => none

end

/-- Modelled from the spec: `JSON.parse` — parse one value and require only
whitespace to remain. -/
def parseJson (l : List Nat) : Option Json :=
  match parseValue (l.length + 1) l with
  | some (j, rem) => if skipWs rem = [] then some j else none
  | none => none

/-! ### The `SignalBlob` shape and the repository's `encode`/`decode` -/

/-- An `RTCSessionDescriptionInit` as serialized by
`pc.localDescription.toJSON()`: a type tag and the SDP text. -/
structure RTCSessionDescriptionInit where
  type : List Nat
  sdp : List Nat
  deriving DecidableEq, Repr

/-- An `RTCIceCandidateInit` as serialized by `candidate.toJSON()`. -/
structure RTCIceCandidateInit where
  candidate : List Nat
  sdpMid : Option (List Nat)
  sdpMLineIndex : Option Int
  usernameFragment : Option (List Nat)
  deriving DecidableEq, Repr

/-- `SignalBlob` of `webrtc.ts`: a session description plus the gathered ICE
candidates. -/
structure SignalBlob where
  sdp : RTCSessionDescriptionInit
  candidates : List RTCIceCandidateInit
  deriving DecidableEq, Repr

/-- Code units of an ASCII key literal. -/
def codeUnits (s : String) : List Nat := s.data.map Char.toNat

def optStrJson : Option (List Nat) → Json
  | none => .null
  | some s => .str s

def optIntJson : Option Int → Json
  | none => .null
  | some n => .num n

/-- The JSON value `JSON.stringify` sees for one ICE candidate. -/
def candidateToJson (c : RTCIceCandidateInit) : Json :=
  .obj [(codeUnits "candidate", .str c.candidate),
        (codeUnits "sdpMid", optStrJson c.sdpMid),
        (codeUnits "sdpMLineIndex", optIntJson c.sdpMLineIndex),
        (codeUnits "usernameFragment", optStrJson c.usernameFragment)]

/-- The JSON value `JSON.stringify` sees for a `SignalBlob`. -/
def blobToJson (b : SignalBlob) : Json :=
  .obj [(codeUnits "sdp",
          .obj [(codeUnits "type", .str b.sdp.type),
                (codeUnits "sdp", .str b.sdp.sdp)]),
        (codeUnits "candidates", .arr (b.candidates.map candidateToJson))]

/-- `encode(blob)` from `webrtc.ts`: `btoa(JSON.stringify(blob))`.  `none`
models the `InvalidCharacterError` `btoa` throws on code units above 255
(never hit by real, ASCII session descriptions). -/
def encode (b : SignalBlob) : Option (List Nat) :=
  btoa (stringify (blobToJson b))

/-- `decode(str)` from `webrtc.ts`: `JSON.parse(atob(str))` inside a
try/catch that rethrows `Error("Invalid signaling data")`.  The TS cast
`as SignalBlob` has no runtime content, so a success carries the raw parsed
JSON value. -/
def decode (l : List Nat) : Except String Json :=
  match atob l with
  | none => .error "Invalid signaling data"
  | some t =>
    match parseJson t with
    | none => .error "Invalid signaling data"
    | some j => .ok j

def jsonOptStr : Json → Option (Option (List Nat))
  | .null => some none
  | .str s => some (some s)
  | _ => none

def jsonOptInt : Json → Option (Option Int)
  | .null => some none
  | .num n => some (some n)
  | _ => none

/-- Read a parsed JSON value back as an ICE candidate (the shape the TS
`as SignalBlob` cast promises). -/
def jsonAsCandidate : Json → Option RTCIceCandidateInit
  | .obj [(k₁, .str cand), (k₂, jm), (k₃, ji), (k₄, ju)] =>
    if k₁ = codeUnits "candidate" ∧ k₂ = codeUnits "sdpMid" ∧
        k₃ = codeUnits "sdpMLineIndex" ∧ k₄ = codeUnits "usernameFragment" then
      match jsonOptStr jm, jsonOptInt ji, jsonOptStr ju with
      | some m, some i, some u =>
        some { candidate := cand, sdpMid := m, sdpMLineIndex := i,
               usernameFragment := u }
      | _, _, _ => none
    else none
  | _ => none

def jsonAsCandidates : List Json → Option (List RTCIceCandidateInit)
  | [] => some []
  | j :: rest =>
    match jsonAsCandidate j, jsonAsCandidates rest with
    | some c, some cs => some (c :: cs)
    | _, _ => none

/-- Read a parsed JSON value back as a `SignalBlob`, field for field. -/
def jsonAsBlob : Json → Option SignalBlob
  | .obj [(k₁, .obj [(k₂, .str ty), (k₃, .str sd)]), (k₄, .arr cands)] =>
    if k₁ = codeUnits "sdp" ∧ k₂ = codeUnits "type" ∧ k₃ = codeUnits "sdp" ∧
        k₄ = codeUnits "candidates" then
      match jsonAsCandidates cands with
      | some cs => some { sdp := { type := ty, sdp := sd }, candidates := cs }
      | none => none
    else none
  | _ => none

/-! ### Round-trip lemmas: numbers -/

/-- The continuation after a printed token must not start with a digit
(in printed JSON it is always `,`, `]`, `}`, `:` or the end). -/
def headNotDigit : List Nat → Prop
  | [] => True
  | c :: _ => ¬ (48 ≤ c ∧ c ≤ 57)

theorem skipWs_cons (c : Nat) (l : List Nat) (h : isWs c = false) :
    skipWs (c :: l) = c :: l := by
  simp [skipWs, h]

theorem natDigits_head (n : Nat) :
    ∃ d ds, natDigits n = d :: ds ∧ 48 ≤ d ∧ d ≤ 57 := by
  induction n using natDigits.induct with
  | case1 n h =>
    refine ⟨48 + n, [], ?_, by omega, by omega⟩
    rw [natDigits, if_pos h]
  | case2 n h ih =>
    obtain ⟨d, ds, heq, h₁, h₂⟩ := ih
    refine ⟨d, ds ++ [48 + n % 10], ?_, h₁, h₂⟩
    rw [natDigits, if_neg h, heq]
    rfl

theorem parseDigits_stop (l : List Nat) (acc : Nat) (h : headNotDigit l) :
    parseDigits l acc = (acc, l) := by
  cases l with
  | nil => rfl
  | cons c rest =>
    simp only [headNotDigit] at h
    simp [parseDigits, h]

theorem parseDigits_natDigits (n : Nat) :
    ∀ acc rest, parseDigits (natDigits n ++ rest) acc =
      parseDigits rest (acc * 10 ^ (natDigits n).length + n) := by
  induction n using natDigits.induct with
  | case1 n h =>
    intro acc rest
    rw [natDigits, if_pos h]
    simp only [List.singleton_append, List.length_singleton, pow_one]
    rw [parseDigits, if_pos (by omega)]
    congr 1
    omega
  | case2 n h ih =>
    intro acc rest
    rw [natDigits, if_neg h]
    rw [List.append_assoc, ih, List.singleton_append]
    rw [parseDigits, if_pos (by omega)]
    rw [List.length_append, List.length_singleton]
    congr 1
    have h48 : 48 + n % 10 - 48 = n % 10 := by omega
    rw [h48]
    calc (acc * 10 ^ (natDigits (n / 10)).length + n / 10) * 10 + n % 10
        = acc * (10 ^ (natDigits (n / 10)).length * 10) +
            (10 * (n / 10) + n % 10) := by ring
      _ = acc * 10 ^ ((natDigits (n / 10)).length + 1) + n := by
          rw [Nat.div_add_mod, pow_succ]

theorem parseNumber_stringifyInt (n : Int) (rest : List Nat)
    (h : headNotDigit rest) :
    parseNumber (stringifyInt n ++ rest) = some (.num n, rest) := by
  by_cases hn : n < 0
  · rw [stringifyInt, if_pos hn]
    obtain ⟨d, ds, heq, h₁, h₂⟩ := natDigits_head (-n).toNat
    rw [heq]
    simp only [List.cons_append]
    rw [parseNumber.eq_def]
    dsimp only
    rw [if_pos (show 48 ≤ d ∧ d ≤ 57 from ⟨h₁, h₂⟩)]
    rw [← List.cons_append, ← heq, parseDigits_natDigits,
      parseDigits_stop rest _ h]
    have hc : ((-n).toNat : Int) = -n := Int.toNat_of_nonneg (by omega)
    simp [hc]
  · rw [stringifyInt, if_neg hn]
    obtain ⟨d, ds, heq, h₁, h₂⟩ := natDigits_head n.toNat
    rw [heq]
    simp only [List.cons_append]
    rw [parseNumber.eq_def]
    dsimp only
    rw [if_neg (show ¬ d = 45 by omega),
      if_pos (show 48 ≤ d ∧ d ≤ 57 from ⟨h₁, h₂⟩)]
    rw [← List.cons_append, ← heq, parseDigits_natDigits,
      parseDigits_stop rest _ h]
    have hc : (n.toNat : Int) = n := Int.toNat_of_nonneg (by omega)
    simp [hc]

/-! ### Round-trip lemmas: strings -/

theorem hexVal_hexDigit (v : Nat) (h : v < 16) :
    hexVal (hexDigit v) = some v := by
  have : ∀ t : Fin 16, hexVal (hexDigit t.val) = some t.val := by decide
  exact this ⟨v, h⟩

theorem map_cons_shape (w : Nat) (o : Option (List Nat × List Nat)) :
    (match o with
     | some (s, rem) => some (w :: s, rem)
     | none => none) = o.map (fun p => (w :: p.1, p.2)) := by
  rcases o with _ | ⟨s, r⟩ <;> rfl

/-- Parsing one escaped unit prepends the original unit. -/
theorem parseStringBody_escapeUnit (u : Nat) (tail : List Nat) :
    parseStringBody (escapeUnit u ++ tail) =
      (parseStringBody tail).map (fun p => (u :: p.1, p.2)) := by
  by_cases h34 : u = 34
  · subst h34
    rw [show escapeUnit 34 ++ tail = 92 :: 34 :: tail from rfl,
      parseStringBody.eq_def]
    simp only []
    rw [parseEscape.eq_def]
    exact map_cons_shape 34 (parseStringBody tail)
  · by_cases h92 : u = 92
    · subst h92
      rw [show escapeUnit 92 ++ tail = 92 :: 92 :: tail from rfl,
        parseStringBody.eq_def]
      simp only []
      rw [parseEscape.eq_def]
      exact map_cons_shape 92 (parseStringBody tail)
    · by_cases h8 : u = 8
      · subst h8
        rw [show escapeUnit 8 ++ tail = 92 :: 98 :: tail from rfl,
          parseStringBody.eq_def]
        simp only []
        rw [parseEscape.eq_def]
        exact map_cons_shape 8 (parseStringBody tail)
      · by_cases h9 : u = 9
        · subst h9
          rw [show escapeUnit 9 ++ tail = 92 :: 116 :: tail from rfl,
            parseStringBody.eq_def]
          simp only []
          rw [parseEscape.eq_def]
          exact map_cons_shape 9 (parseStringBody tail)
        · by_cases h10 : u = 10
          · subst h10
            rw [show escapeUnit 10 ++ tail = 92 :: 110 :: tail from rfl,
              parseStringBody.eq_def]
            simp only []
            rw [parseEscape.eq_def]
            exact map_cons_shape 10 (parseStringBody tail)
          · by_cases h12 : u = 12
            · subst h12
              rw [show escapeUnit 12 ++ tail = 92 :: 102 :: tail from rfl,
                parseStringBody.eq_def]
              simp only []
              rw [parseEscape.eq_def]
              exact map_cons_shape 12 (parseStringBody tail)
            · by_cases h13 : u = 13
              · subst h13
                rw [show escapeUnit 13 ++ tail = 92 :: 114 :: tail from rfl,
                  parseStringBody.eq_def]
                simp only []
                rw [parseEscape.eq_def]
                exact map_cons_shape 13 (parseStringBody tail)
              · by_cases hlt : u < 32
                · rw [escapeUnit]
                  simp only [if_neg h34, if_neg h92, if_neg h8, if_neg h9,
                    if_neg h10, if_neg h12, if_neg h13, if_pos hlt]
                  simp only [List.cons_append, List.nil_append]
                  rw [parseStringBody.eq_def]
                  simp only []
                  rw [parseEscape.eq_def]
                  simp only [if_true]
                  rw [show hexVal 48 = some 0 from rfl,
                    hexVal_hexDigit (u / 16) (by omega),
                    hexVal_hexDigit (u % 16) (by omega)]
                  simp only []
                  have hv : 0 * 4096 + 0 * 256 + u / 16 * 16 + u % 16 = u := by
                    omega
                  rw [hv]
                  exact map_cons_shape u (parseStringBody tail)
                · rw [escapeUnit]
                  simp only [if_neg h34, if_neg h92, if_neg h8, if_neg h9,
                    if_neg h10, if_neg h12, if_neg h13, if_neg hlt]
                  simp only [List.cons_append, List.nil_append]
                  rw [parseStringBody.eq_def]
                  simp only []
                  rw [if_neg h34, if_neg h92, if_neg hlt]
                  exact map_cons_shape u (parseStringBody tail)

/-- Parsing a printed string body returns the original units and the input
after the closing quote. -/
theorem parseStringBody_escape (s : List Nat) (rest : List Nat) :
    parseStringBody (escapeStr s ++ 34 :: rest) = some (s, rest) := by
  induction s with
  | nil =>
    rw [show escapeStr [] = [] from rfl, List.nil_append,
      parseStringBody.eq_def]
    simp only [if_true]
  | cons u s ih =>
    rw [show escapeStr (u :: s) = escapeUnit u ++ escapeStr s from by
      simp [escapeStr]]
    rw [List.append_assoc, parseStringBody_escapeUnit, ih]
    rfl

/-- A printed string literal parses back. -/
theorem parseStringBody_stringifyString (s tail : List Nat) :
    stringifyString s ++ tail = 34 :: (escapeStr s ++ (34 :: tail)) ∧
    parseStringBody (escapeStr s ++ 34 :: tail) = some (s, tail) := by
  constructor
  · simp [stringifyString]
  · exact parseStringBody_escape s tail

/-! ### Round-trip lemmas: the recursive-descent core -/

mutual

/-- Fuel sufficient for `parseValue` to parse this value. -/
def fuelOf : Json → Nat
  | .null => 1
  | .bool _ => 1
  | .num _ => 1
  | .str _ => 1
  | .arr elems => fuelElems elems + 1
  | .obj fields => fuelFields fields + 1

/-- Fuel sufficient for `parseElems` on these elements. -/
def fuelElems : List Json → Nat
  | [] => 0
  | j :: rest => fuelOf j + fuelElems rest + 1

/-- Fuel sufficient for `parseFields` on these members. -/
def fuelFields : List (List Nat × Json) → Nat
  | [] => 0
  | f :: rest => fuelOf f.2 + fuelFields rest + 1

end

theorem fuelOf_pos (j : Json) : 1 ≤ fuelOf j := by
  cases j <;> simp [fuelOf]

/-- Heads printed for a number: a minus sign or a digit. -/
theorem stringifyInt_head (n : Int) :
    ∃ c cs, stringifyInt n = c :: cs ∧ (c = 45 ∨ (48 ≤ c ∧ c ≤ 57)) := by
  by_cases hn : n < 0
  · exact ⟨45, _, by rw [stringifyInt, if_pos hn], Or.inl rfl⟩
  · obtain ⟨d, ds, heq, h₁, h₂⟩ := natDigits_head n.toNat
    exact ⟨d, ds, by rw [stringifyInt, if_neg hn, heq], Or.inr ⟨h₁, h₂⟩⟩

/-- The first printed character of any value is never whitespace nor a
closing bracket. -/
theorem stringify_head (j : Json) :
    ∃ c cs, stringify j = c :: cs ∧ isWs c = false ∧ c ≠ 93 ∧ c ≠ 125 := by
  cases j with
  | null => exact ⟨110, _, rfl, by decide, by decide, by decide⟩
  | bool b =>
    cases b with
    | true => exact ⟨116, _, rfl, by decide, by decide, by decide⟩
    | false => exact ⟨102, _, rfl, by decide, by decide, by decide⟩
  | num n =>
    obtain ⟨c, cs, heq, hc⟩ := stringifyInt_head n
    refine ⟨c, cs, by rw [stringify, heq], ?_, ?_, ?_⟩
    · rcases hc with rfl | ⟨h₁, h₂⟩
      · decide
      · simp only [isWs, Bool.or_eq_false_iff, decide_eq_false_iff_not]
        omega
    · rcases hc with rfl | ⟨h₁, h₂⟩ <;> omega
    · rcases hc with rfl | ⟨h₁, h₂⟩ <;> omega
  | str s => exact ⟨34, _, rfl, by decide, by decide, by decide⟩
  | arr elems => exact ⟨91, _, rfl, by decide, by decide, by decide⟩
  | obj fields => exact ⟨123, _, rfl, by decide, by decide, by decide⟩

/-- Head of a non-empty element list's printed form. -/
theorem stringifyElems_head (e : Json) (es : List Json) :
    ∃ c cs, stringifyElems (e :: es) = c :: cs ∧ isWs c = false ∧ c ≠ 93 := by
  obtain ⟨c, cs, heq, hws, h93, _⟩ := stringify_head e
  cases es with
  | nil => exact ⟨c, cs, by rw [stringifyElems, heq], hws, h93⟩
  | cons e₂ es' =>
    refine ⟨c, cs ++ 44 :: stringifyElems (e₂ :: es'), ?_, hws, h93⟩
    rw [stringifyElems]
    · rw [heq]
      rfl
    · simp

/-- Parsing a printed value consumes exactly the printed text and returns
the value, given enough fuel (and a continuation not starting with a digit,
as in all printed JSON). -/
theorem parse_print (fuel : Nat) :
    (∀ j rest, fuelOf j ≤ fuel → headNotDigit rest →
      parseValue fuel (stringify j ++ rest) = some (j, rest)) ∧
    (∀ elems acc rest, elems ≠ [] → fuelElems elems ≤ fuel →
      parseElems fuel (stringifyElems elems ++ 93 :: rest) acc =
        some (.arr (acc ++ elems), rest)) ∧
    (∀ fields acc rest, fields ≠ [] → fuelFields fields ≤ fuel →
      parseFields fuel (stringifyFields fields ++ 125 :: rest) acc =
        some (.obj (acc ++ fields), rest)) := by
  induction fuel with
  | zero =>
    refine ⟨?_, ?_, ?_⟩
    · intro j rest hfuel _
      exact absurd hfuel (by have := fuelOf_pos j; omega)
    · intro elems acc rest hne hfuel
      cases elems with
      | nil => exact absurd rfl hne
      | cons e es =>
        rw [fuelElems] at hfuel
        exact absurd hfuel (by have := fuelOf_pos e; omega)
    · intro fields acc rest hne hfuel
      cases fields with
      | nil => exact absurd rfl hne
      | cons f fs =>
        rw [fuelFields] at hfuel
        exact absurd hfuel (by have := fuelOf_pos f.2; omega)
  | succ fuel ih =>
    obtain ⟨ihV, ihE, ihF⟩ := ih
    refine ⟨?_, ?_, ?_⟩
    · intro j rest hfuel hrest
      cases j with
      | null =>
        rw [show stringify .null = [110, 117, 108, 108] from by rw [stringify]]
        simp only [List.cons_append, List.nil_append]
        rw [parseValue]
        rw [skipWs_cons _ _ (by decide)]
        simp only [if_true]
      | bool b =>
        cases b with
        | true =>
          rw [show stringify (.bool true) = [116, 114, 117, 101] from by
            rw [stringify]]
          simp only [List.cons_append, List.nil_append]
          rw [parseValue]
          rw [skipWs_cons _ _ (by decide)]
          rfl
        | false =>
          rw [show stringify (.bool false) = [102, 97, 108, 115, 101] from by
            rw [stringify]]
          simp only [List.cons_append, List.nil_append]
          rw [parseValue]
          rw [skipWs_cons _ _ (by decide)]
          rfl
      | num n =>
        obtain ⟨c, cs, heq, hc⟩ := stringifyInt_head n
        rw [show stringify (.num n) = stringifyInt n from by rw [stringify]]
        rw [heq]
        simp only [List.cons_append]
        rw [parseValue]
        rw [skipWs_cons _ _ (by
          rcases hc with rfl | h
          · decide
          · simp only [isWs, Bool.or_eq_false_iff, decide_eq_false_iff_not]
            omega)]
        simp only []
        rw [if_neg (show ¬ c = 110 by rcases hc with rfl | ⟨h₁, h₂⟩ <;> omega),
          if_neg (show ¬ c = 116 by rcases hc with rfl | ⟨h₁, h₂⟩ <;> omega),
          if_neg (show ¬ c = 102 by rcases hc with rfl | ⟨h₁, h₂⟩ <;> omega),
          if_neg (show ¬ c = 34 by rcases hc with rfl | ⟨h₁, h₂⟩ <;> omega),
          if_neg (show ¬ c = 91 by rcases hc with rfl | ⟨h₁, h₂⟩ <;> omega),
          if_neg (show ¬ c = 123 by rcases hc with rfl | ⟨h₁, h₂⟩ <;> omega)]
        rw [← List.cons_append, ← heq]
        exact parseNumber_stringifyInt n rest hrest
      | str s =>
        rw [show stringify (.str s) = stringifyString s from by rw [stringify]]
        rw [stringifyString]
        simp only [List.cons_append, List.append_assoc, List.singleton_append,
          List.nil_append]
        rw [parseValue]
        rw [skipWs_cons _ _ (by decide)]
        simp only []
        rw [parseStringBody_escape]
        rfl
      | arr elems =>
        rw [show stringify (.arr elems) = 91 :: (stringifyElems elems ++ [93])
          from by rw [stringify]]
        simp only [List.cons_append, List.append_assoc, List.singleton_append,
          List.nil_append]
        rw [parseValue]
        rw [skipWs_cons _ _ (by decide)]
        simp only []
        rw [if_neg (show ¬ (91:Nat) = 110 by decide),
          if_neg (show ¬ (91:Nat) = 116 by decide),
          if_neg (show ¬ (91:Nat) = 102 by decide),
          if_neg (show ¬ (91:Nat) = 34 by decide)]
        simp only [if_true]
        cases elems with
        | nil =>
          rw [show stringifyElems [] = [] from by rw [stringifyElems]]
          rw [List.nil_append, skipWs_cons _ _ (by decide)]
        | cons e es =>
          obtain ⟨c₀, cs₀, heqE, hws₀, h93₀⟩ := stringifyElems_head e es
          rw [heqE]
          simp only [List.cons_append]
          rw [skipWs_cons _ _ hws₀]
          split
          · next rem heqm =>
            rw [List.cons.injEq] at heqm
            exact absurd heqm.1 h93₀
          · next =>
            rw [← List.cons_append, ← heqE]
            rw [fuelOf] at hfuel
            have := ihE (e :: es) [] rest (by simp) (by omega)
            simpa using this
      | obj fields =>
        rw [show stringify (.obj fields) = 123 :: (stringifyFields fields ++ [125])
          from by rw [stringify]]
        simp only [List.cons_append, List.append_assoc, List.singleton_append,
          List.nil_append]
        rw [parseValue]
        rw [skipWs_cons _ _ (by decide)]
        simp only []
        rw [if_neg (show ¬ (123:Nat) = 110 by decide),
          if_neg (show ¬ (123:Nat) = 116 by decide),
          if_neg (show ¬ (123:Nat) = 102 by decide),
          if_neg (show ¬ (123:Nat) = 34 by decide),
          if_neg (show ¬ (123:Nat) = 91 by decide)]
        simp only [if_true]
        cases fields with
        | nil =>
          rw [show stringifyFields [] = [] from by rw [stringifyFields]]
          rw [List.nil_append, skipWs_cons _ _ (by decide)]
        | cons f fs =>
          obtain ⟨k, v⟩ := f
          have heqF : ∃ cs₀, stringifyFields ((k, v) :: fs) = 34 :: cs₀ := by
            cases fs with
            | nil =>
              refine ⟨escapeStr k ++ [34] ++ 58 :: stringify v, ?_⟩
              rw [show stringifyFields [(k, v)] =
                stringifyString k ++ 58 :: stringify v from by
                  rw [stringifyFields]]
              rw [stringifyString]
              simp
            | cons f₂ fs' =>
              refine ⟨escapeStr k ++ [34] ++ 58 :: stringify v ++
                44 :: stringifyFields (f₂ :: fs'), ?_⟩
              rw [stringifyFields]
              · rw [stringifyString]
                simp
              · simp
          obtain ⟨cs₀, heqF⟩ := heqF
          rw [heqF]
          simp only [List.cons_append]
          rw [skipWs_cons _ _ (by decide)]
          split
          · next rem heqm =>
            rw [List.cons.injEq] at heqm
            exact absurd heqm.1 (by decide)
          · next =>
            rw [← List.cons_append, ← heqF]
            rw [fuelOf] at hfuel
            have := ihF ((k, v) :: fs) [] rest (by simp) (by omega)
            simpa using this
    · intro elems acc rest hne hfuel
      cases elems with
      | nil => exact absurd rfl hne
      | cons e es =>
        rw [fuelElems] at hfuel
        have hfe : fuelOf e ≤ fuel := by
          have := fuelOf_pos e
          omega
        cases es with
        | nil =>
          rw [show stringifyElems [e] = stringify e from by rw [stringifyElems]]
          rw [parseElems]
          rw [ihV e (93 :: rest) hfe (by simp only [headNotDigit]; omega)]
          simp only []
          rw [skipWs_cons _ _ (by decide)]
        | cons e₂ es' =>
          have hsl : stringifyElems (e :: e₂ :: es') =
              stringify e ++ 44 :: stringifyElems (e₂ :: es') := by
            rw [stringifyElems]
            simp
          rw [hsl]
          simp only [List.append_assoc, List.cons_append]
          rw [parseElems]
          rw [ihV e _ hfe (by simp only [headNotDigit]; omega)]
          simp only []
          rw [skipWs_cons _ _ (by decide)]
          have := ihE (e₂ :: es') (acc ++ [e]) rest (by simp) (by
            have := fuelOf_pos e
            omega)
          simpa [List.append_assoc] using this
    · intro fields acc rest hne hfuel
      cases fields with
      | nil => exact absurd rfl hne
      | cons f fs =>
        obtain ⟨k, v⟩ := f
        rw [fuelFields] at hfuel
        dsimp only at hfuel
        have hfv : fuelOf v ≤ fuel := by
          have := fuelOf_pos v
          omega
        cases fs with
        | nil =>
          rw [show stringifyFields [(k, v)] =
            stringifyString k ++ 58 :: stringify v from by rw [stringifyFields]]
          rw [stringifyString]
          simp only [List.cons_append, List.append_assoc,
            List.singleton_append, List.nil_append]
          rw [parseFields]
          rw [skipWs_cons _ _ (by decide)]
          simp only []
          rw [parseStringBody_escape]
          simp only []
          rw [skipWs_cons _ _ (by decide)]
          simp only []
          rw [ihV v _ hfv (by simp only [headNotDigit]; omega)]
          simp only []
          rw [skipWs_cons _ _ (by decide)]
        | cons f₂ fs' =>
          have hsf : stringifyFields ((k, v) :: f₂ :: fs') =
              stringifyString k ++ 58 :: stringify v ++
                44 :: stringifyFields (f₂ :: fs') := by
            rw [stringifyFields]
            simp
          rw [hsf]
          rw [stringifyString]
          simp only [List.cons_append, List.append_assoc,
            List.singleton_append, List.nil_append]
          rw [parseFields]
          rw [skipWs_cons _ _ (by decide)]
          simp only []
          rw [parseStringBody_escape]
          simp only []
          rw [skipWs_cons _ _ (by decide)]
          simp only []
          rw [ihV v _ hfv (by simp only [headNotDigit]; omega)]
          simp only []
          rw [skipWs_cons _ _ (by decide)]
          have := ihF (f₂ :: fs') (acc ++ [(k, v)]) rest (by simp) (by
            have := fuelOf_pos v
            omega)
          simpa [List.append_assoc] using this


theorem stringify_length_pos (j : Json) : 1 ≤ (stringify j).length := by
  obtain ⟨c, cs, heq, -, -, -⟩ := stringify_head j
  rw [heq]
  simp

/-- `parseJson`'s fuel — the input length plus one — always suffices for a
printed value. -/
theorem fuelOf_le_length : ∀ j : Json, fuelOf j ≤ (stringify j).length := by
  refine fuelOf.induct
    (fun j => fuelOf j ≤ (stringify j).length)
    (fun fields => fuelFields fields ≤ (stringifyFields fields).length + 1)
    (fun elems => fuelElems elems ≤ (stringifyElems elems).length + 1)
    ?_ ?_ ?_ ?_ ?_ ?_ ?_ ?_ ?_ ?_
  · simp only [fuelOf]; exact stringify_length_pos .null
  · intro b; simp only [fuelOf]; exact stringify_length_pos (.bool b)
  · intro n; simp only [fuelOf]; exact stringify_length_pos (.num n)
  · intro s; simp only [fuelOf]; exact stringify_length_pos (.str s)
  · intro elems ih
    simp only [fuelOf]
    rw [show stringify (.arr elems) = 91 :: (stringifyElems elems ++ [93])
      from by rw [stringify]]
    simp only [List.length_cons, List.length_append, List.length_singleton]
    omega
  · intro fields ih
    simp only [fuelOf]
    rw [show stringify (.obj fields) = 123 :: (stringifyFields fields ++ [125])
      from by rw [stringify]]
    simp only [List.length_cons, List.length_append, List.length_singleton]
    omega
  · simp [fuelElems, stringifyElems]
  · intro j rest ihj ihrest
    simp only [fuelElems]
    cases rest with
    | nil =>
      rw [show stringifyElems [j] = stringify j from by rw [stringifyElems]]
      simp only [fuelElems] at ihrest ⊢
      omega
    | cons r rs =>
      have hsl : stringifyElems (j :: r :: rs) =
          stringify j ++ 44 :: stringifyElems (r :: rs) := by
        rw [stringifyElems]
        simp
      rw [hsl]
      simp only [List.length_append, List.length_cons]
      omega
  · simp [fuelFields, stringifyFields]
  · intro f rest ihv ihrest
    obtain ⟨k, v⟩ := f
    simp only [fuelFields]
    dsimp only at ihv ⊢
    cases rest with
    | nil =>
      rw [show stringifyFields [(k, v)] =
        stringifyString k ++ 58 :: stringify v from by rw [stringifyFields]]
      simp only [fuelFields] at ihrest ⊢
      simp only [List.length_append, List.length_cons]
      omega
    | cons f₂ fs =>
      have hsf : stringifyFields ((k, v) :: f₂ :: fs) =
          stringifyString k ++ 58 :: stringify v ++
            44 :: stringifyFields (f₂ :: fs) := by
        rw [stringifyFields]
        simp
      rw [hsf]
      simp only [List.length_append, List.length_cons]
      omega

/-- `JSON.parse ∘ JSON.stringify` is the identity on the modelled values. -/
theorem parseJson_stringify (j : Json) : parseJson (stringify j) = some j := by
  have hb := fuelOf_le_length j
  have h := (parse_print ((stringify j).length + 1)).1 j [] (by omega) trivial
  rw [List.append_nil] at h
  rw [parseJson, h]
  rfl

/-- Reading the serialized form of a candidate recovers it field for
field. -/
theorem jsonAsCandidate_candidateToJson (c : RTCIceCandidateInit) :
    jsonAsCandidate (candidateToJson c) = some c := by
  obtain ⟨cand, m, i, u⟩ := c
  cases m <;> cases i <;> cases u <;> rfl

theorem jsonAsCandidates_map (cs : List RTCIceCandidateInit) :
    jsonAsCandidates (cs.map candidateToJson) = some cs := by
  induction cs with
  | nil => rfl
  | cons c rest ih =>
    simp only [List.map_cons, jsonAsCandidates,
      jsonAsCandidate_candidateToJson, ih]

/-- Reading the serialized form of a blob recovers it field for field. -/
theorem jsonAsBlob_blobToJson (b : SignalBlob) :
    jsonAsBlob (blobToJson b) = some b := by
  obtain ⟨⟨ty, sd⟩, cands⟩ := b
  simp only [blobToJson, jsonAsBlob, jsonAsCandidates_map]
  rfl

/-- Every code unit of the string is in `btoa`'s Latin-1 domain. -/
def strLatin1 (s : List Nat) : Prop := ∀ c ∈ s, c < 256

mutual

/-- All strings inside the value are Latin-1 (true of every real signaling
blob: SDP and ICE candidate strings are ASCII). -/
def jsonLatin1 : Json → Prop
  | .null => True
  | .bool _ => True
  | .num _ => True
  | .str s => strLatin1 s
  | .arr elems => elemsLatin1 elems
  | .obj fields => fieldsLatin1 fields

def elemsLatin1 : List Json → Prop
  | [] => True
  | j :: rest => jsonLatin1 j ∧ elemsLatin1 rest

def fieldsLatin1 : List (List Nat × Json) → Prop
  | [] => True
  | f :: rest => strLatin1 f.1 ∧ jsonLatin1 f.2 ∧ fieldsLatin1 rest

end

theorem natDigits_mem (n : Nat) : ∀ c ∈ natDigits n, 48 ≤ c ∧ c ≤ 57 := by
  induction n using natDigits.induct with
  | case1 n h =>
    intro c hc
    rw [natDigits, if_pos h] at hc
    simp only [List.mem_singleton] at hc
    omega
  | case2 n h ih =>
    intro c hc
    rw [natDigits, if_neg h] at hc
    rw [List.mem_append, List.mem_singleton] at hc
    rcases hc with hc | hc
    · exact ih c hc
    · omega

theorem escapeUnit_latin1 (u : Nat) (hu : u < 256) :
    ∀ c ∈ escapeUnit u, c < 256 := by
  intro c hc
  rw [escapeUnit] at hc
  by_cases h34 : u = 34
  · simp [h34] at hc; omega
  · rw [if_neg h34] at hc
    by_cases h92 : u = 92
    · simp [h92] at hc; omega
    · rw [if_neg h92] at hc
      by_cases h8 : u = 8
      · simp [h8] at hc; omega
      · rw [if_neg h8] at hc
        by_cases h9 : u = 9
        · simp [h9] at hc; omega
        · rw [if_neg h9] at hc
          by_cases h10 : u = 10
          · simp [h10] at hc; omega
          · rw [if_neg h10] at hc
            by_cases h12 : u = 12
            · simp [h12] at hc; omega
            · rw [if_neg h12] at hc
              by_cases h13 : u = 13
              · simp [h13] at hc; omega
              · rw [if_neg h13] at hc
                by_cases hlt : u < 32
                · rw [if_pos hlt] at hc
                  simp only [hexDigit, List.mem_cons,
                    List.not_mem_nil, or_false] at hc
                  rcases hc with rfl | rfl | rfl | rfl | hc | hc <;>
                    first
                    | omega
                    | (split at hc <;> omega)
                · rw [if_neg hlt] at hc
                  simp only [List.mem_singleton] at hc
                  omega

theorem stringifyString_latin1 (s : List Nat) (hs : strLatin1 s) :
    ∀ c ∈ stringifyString s, c < 256 := by
  intro c hc
  rw [stringifyString] at hc
  rw [List.mem_cons, List.mem_append, List.mem_singleton] at hc
  rcases hc with rfl | hc | rfl
  · omega
  · rw [escapeStr] at hc
    rw [List.mem_flatten] at hc
    obtain ⟨l, hl, hcl⟩ := hc
    rw [List.mem_map] at hl
    obtain ⟨u, hu, rfl⟩ := hl
    exact escapeUnit_latin1 u (hs u hu) c hcl
  · omega

theorem stringifyInt_latin1 (n : Int) : ∀ c ∈ stringifyInt n, c < 256 := by
  intro c hc
  rw [stringifyInt] at hc
  split at hc
  · rw [List.mem_cons] at hc
    rcases hc with rfl | hc
    · omega
    · have := natDigits_mem _ c hc
      omega
  · have := natDigits_mem _ c hc
    omega

/-- A Latin-1-clean value prints to Latin-1 code units, so `btoa` accepts
it. -/
theorem stringify_latin1 :
    ∀ j : Json, jsonLatin1 j → ∀ c ∈ stringify j, c < 256 := by
  refine fuelOf.induct
    (fun j => jsonLatin1 j → ∀ c ∈ stringify j, c < 256)
    (fun fields => fieldsLatin1 fields →
      ∀ c ∈ stringifyFields fields, c < 256)
    (fun elems => elemsLatin1 elems → ∀ c ∈ stringifyElems elems, c < 256)
    ?_ ?_ ?_ ?_ ?_ ?_ ?_ ?_ ?_ ?_
  · intro _ c hc
    rw [show stringify .null = [110, 117, 108, 108] from by rw [stringify]]
      at hc
    simp at hc
    omega
  · intro b _ c hc
    cases b with
    | true =>
      rw [show stringify (.bool true) = [116, 114, 117, 101] from by
        rw [stringify]] at hc
      simp at hc
      omega
    | false =>
      rw [show stringify (.bool false) = [102, 97, 108, 115, 101] from by
        rw [stringify]] at hc
      simp at hc
      omega
  · intro n _ c hc
    rw [show stringify (.num n) = stringifyInt n from by rw [stringify]] at hc
    exact stringifyInt_latin1 n c hc
  · intro s hs c hc
    rw [show stringify (.str s) = stringifyString s from by rw [stringify]]
      at hc
    exact stringifyString_latin1 s hs c hc
  · intro elems ih hl c hc
    rw [show stringify (.arr elems) = 91 :: (stringifyElems elems ++ [93])
      from by rw [stringify]] at hc
    rw [List.mem_cons, List.mem_append, List.mem_singleton] at hc
    rw [show jsonLatin1 (.arr elems) = elemsLatin1 elems from by
      rw [jsonLatin1]] at hl
    rcases hc with rfl | hc | rfl
    · omega
    · exact ih hl c hc
    · omega
  · intro fields ih hl c hc
    rw [show stringify (.obj fields) = 123 :: (stringifyFields fields ++ [125])
      from by rw [stringify]] at hc
    rw [List.mem_cons, List.mem_append, List.mem_singleton] at hc
    rw [show jsonLatin1 (.obj fields) = fieldsLatin1 fields from by
      rw [jsonLatin1]] at hl
    rcases hc with rfl | hc | rfl
    · omega
    · exact ih hl c hc
    · omega
  · intro _ c hc
    rw [show stringifyElems [] = ([] : List Nat) from by rw [stringifyElems]]
      at hc
    simp at hc
  · intro j rest ihj ihrest hl c hc
    rw [show elemsLatin1 (j :: rest) = (jsonLatin1 j ∧ elemsLatin1 rest)
      from by rw [elemsLatin1]] at hl
    cases rest with
    | nil =>
      rw [show stringifyElems [j] = stringify j from by rw [stringifyElems]]
        at hc
      exact ihj hl.1 c hc
    | cons r rs =>
      have hsl : stringifyElems (j :: r :: rs) =
          stringify j ++ 44 :: stringifyElems (r :: rs) := by
        rw [stringifyElems]
        simp
      rw [hsl, List.mem_append, List.mem_cons] at hc
      rcases hc with hc | rfl | hc
      · exact ihj hl.1 c hc
      · omega
      · exact ihrest hl.2 c hc
  · intro _ c hc
    rw [show stringifyFields [] = ([] : List Nat) from by rw [stringifyFields]]
      at hc
    simp at hc
  · intro f rest ihv ihrest hl c hc
    obtain ⟨k, v⟩ := f
    rw [show fieldsLatin1 ((k, v) :: rest) =
      (strLatin1 (k, v).1 ∧ jsonLatin1 (k, v).2 ∧ fieldsLatin1 rest)
      from by rw [fieldsLatin1]] at hl
    dsimp only at hl ihv
    cases rest with
    | nil =>
      rw [show stringifyFields [(k, v)] =
        stringifyString k ++ 58 :: stringify v from by rw [stringifyFields]]
        at hc
      rw [List.mem_append, List.mem_cons] at hc
      rcases hc with hc | rfl | hc
      · exact stringifyString_latin1 k hl.1 c hc
      · omega
      · exact ihv hl.2.1 c hc
    | cons f₂ fs =>
      have hsf : stringifyFields ((k, v) :: f₂ :: fs) =
          stringifyString k ++ 58 :: stringify v ++
            44 :: stringifyFields (f₂ :: fs) := by
        rw [stringifyFields]
        simp
      rw [hsf] at hc
      simp only [List.mem_append, List.mem_cons] at hc
      rcases hc with (hc | rfl | hc) | rfl | hc
      · exact stringifyString_latin1 k hl.1 c hc
      · omega
      · exact ihv hl.2.1 c hc
      · omega
      · exact ihrest hl.2.2 c hc

def optLatin1 : Option (List Nat) → Prop
  | none => True
  | some s => strLatin1 s

/-- All of a candidate's string fields are Latin-1. -/
def candFieldsLatin1 (c : RTCIceCandidateInit) : Prop :=
  strLatin1 c.candidate ∧ optLatin1 c.sdpMid ∧ optLatin1 c.usernameFragment

/-- A well-formed signaling blob: all its strings are within `btoa`'s
Latin-1 domain (true of every real blob — SDP and candidates are ASCII). -/
def blobLatin1 (b : SignalBlob) : Prop :=
  strLatin1 b.sdp.type ∧ strLatin1 b.sdp.sdp ∧
    ∀ c ∈ b.candidates, candFieldsLatin1 c

instance (s : List Nat) : Decidable (strLatin1 s) := by
  unfold strLatin1; infer_instance

instance (o : Option (List Nat)) : Decidable (optLatin1 o) := by
  cases o with
  | none => exact .isTrue trivial
  | some s => exact decidable_of_iff (strLatin1 s) Iff.rfl

instance (c : RTCIceCandidateInit) : Decidable (candFieldsLatin1 c) := by
  unfold candFieldsLatin1; infer_instance

instance (b : SignalBlob) : Decidable (blobLatin1 b) := by
  unfold blobLatin1; infer_instance

theorem candFieldsLatin1_json (c : RTCIceCandidateInit)
    (hc : candFieldsLatin1 c) : jsonLatin1 (candidateToJson c) := by
  obtain ⟨hcand, hmid, hfrag⟩ := hc
  rw [candidateToJson]
  rw [show jsonLatin1 (.obj
    [(codeUnits "candidate", .str c.candidate),
     (codeUnits "sdpMid", optStrJson c.sdpMid),
     (codeUnits "sdpMLineIndex", optIntJson c.sdpMLineIndex),
     (codeUnits "usernameFragment", optStrJson c.usernameFragment)]) =
    fieldsLatin1
    [(codeUnits "candidate", .str c.candidate),
     (codeUnits "sdpMid", optStrJson c.sdpMid),
     (codeUnits "sdpMLineIndex", optIntJson c.sdpMLineIndex),
     (codeUnits "usernameFragment", optStrJson c.usernameFragment)]
    from by rw [jsonLatin1]]
  rw [fieldsLatin1]
  dsimp only
  refine ⟨by decide, hcand, ?_⟩
  rw [fieldsLatin1]
  dsimp only
  refine ⟨by decide, ?_, ?_⟩
  · cases hm : c.sdpMid with
    | none => rw [optStrJson]; trivial
    | some m =>
      rw [optStrJson]
      rw [hm] at hmid
      exact hmid
  · rw [fieldsLatin1]
    dsimp only
    refine ⟨by decide, ?_, ?_⟩
    · cases c.sdpMLineIndex with
      | none => rw [optIntJson]; trivial
      | some i => rw [optIntJson]; trivial
    · rw [fieldsLatin1]
      dsimp only
      refine ⟨by decide, ?_, trivial⟩
      cases hu : c.usernameFragment with
      | none => rw [optStrJson]; trivial
      | some u =>
        rw [optStrJson]
        rw [hu] at hfrag
        exact hfrag

theorem blobLatin1_json (b : SignalBlob) (hb : blobLatin1 b) :
    jsonLatin1 (blobToJson b) := by
  obtain ⟨hty, hsd, hcands⟩ := hb
  rw [blobToJson]
  rw [show jsonLatin1 (.obj
    [(codeUnits "sdp",
       .obj [(codeUnits "type", .str b.sdp.type),
             (codeUnits "sdp", .str b.sdp.sdp)]),
     (codeUnits "candidates", .arr (b.candidates.map candidateToJson))]) =
    fieldsLatin1
    [(codeUnits "sdp",
       .obj [(codeUnits "type", .str b.sdp.type),
             (codeUnits "sdp", .str b.sdp.sdp)]),
     (codeUnits "candidates", .arr (b.candidates.map candidateToJson))]
    from by rw [jsonLatin1]]
  rw [fieldsLatin1]
  dsimp only
  refine ⟨by decide, ?_, ?_⟩
  · rw [show jsonLatin1 (.obj [(codeUnits "type", .str b.sdp.type),
      (codeUnits "sdp", .str b.sdp.sdp)]) =
      fieldsLatin1 [(codeUnits "type", .str b.sdp.type),
      (codeUnits "sdp", .str b.sdp.sdp)] from by rw [jsonLatin1]]
    rw [fieldsLatin1]
    dsimp only
    refine ⟨by decide, hty, ?_⟩
    rw [fieldsLatin1]
    dsimp only
    exact ⟨by decide, hsd, trivial⟩
  · rw [fieldsLatin1]
    dsimp only
    refine ⟨by decide, ?_, trivial⟩
    rw [show jsonLatin1 (.arr (b.candidates.map candidateToJson)) =
      elemsLatin1 (b.candidates.map candidateToJson) from by rw [jsonLatin1]]
    have hgen : ∀ cs : List RTCIceCandidateInit,
        (∀ c ∈ cs, candFieldsLatin1 c) →
        elemsLatin1 (cs.map candidateToJson) := by
      intro cs
      induction cs with
      | nil =>
        intro _
        rw [List.map_nil, elemsLatin1]
        trivial
      | cons c rest ih =>
        intro hcs
        rw [List.map_cons, elemsLatin1]
        exact ⟨candFieldsLatin1_json c (hcs c (by simp)),
          ih (fun c₀ hc₀ => hcs c₀ (by simp [hc₀]))⟩
    exact hgen b.candidates hcands

/-! ## Claim theorems -/

/-- C5: `deleteSession(name, hostId)` removes the session and returns `true`
iff a session named `name` exists whose stored `hostId` equals the argument;
in every other case it returns `false` and leaves the session map unchanged;
a repeated call with the same arguments returns `false`.  (It is embedded as
a total function, mirroring that the source has no `throw` on any path.) -/
theorem deleteSession_spec (st : Queue.State) (name hostId : String)
    (hwf : keysNodup st) :
    ((Queue.deleteSession st name hostId).1 = true ↔
      ∃ s, jsGet st name = some s ∧ s.hostId = hostId) ∧
    ((Queue.deleteSession st name hostId).1 = true →
      (Queue.deleteSession st name hostId).2 = jsDelete st name ∧
      jsGet (Queue.deleteSession st name hostId).2 name = none) ∧
    ((Queue.deleteSession st name hostId).1 = false →
      (Queue.deleteSession st name hostId).2 = st) ∧
    (Queue.deleteSession (Queue.deleteSession st name hostId).2 name
      hostId).1 = false := by
  have hnone : jsGet (jsDelete st name) name = none :=
    jsGet_jsDelete_self st name hwf
  refine ⟨?_, ?_, ?_, ?_⟩ <;>
    cases hget : jsGet st name with
  | none => simp [Queue.deleteSession, hget]
  | some s =>
    by_cases hh : s.hostId = hostId <;>
      simp [Queue.deleteSession, hget, hh, hnone]

/-- C5 witness: concrete run of `deleteSession_spec` on a one-session store
with a matching host token. -/
theorem deleteSession_spec_witness :
    ((Queue.deleteSession [("s", Queue.Session.fresh "s" "h" 0)] "s" "h").1
        = true ↔
      ∃ s, jsGet [("s", Queue.Session.fresh "s" "h" 0)] "s" = some s ∧
        s.hostId = "h") ∧
    ((Queue.deleteSession [("s", Queue.Session.fresh "s" "h" 0)] "s" "h").1
        = true →
      (Queue.deleteSession [("s", Queue.Session.fresh "s" "h" 0)] "s" "h").2
          = jsDelete [("s", Queue.Session.fresh "s" "h" 0)] "s" ∧
      jsGet (Queue.deleteSession [("s", Queue.Session.fresh "s" "h" 0)]
        "s" "h").2 "s" = none) ∧
    ((Queue.deleteSession [("s", Queue.Session.fresh "s" "h" 0)] "s" "h").1
        = false →
      (Queue.deleteSession [("s", Queue.Session.fresh "s" "h" 0)] "s" "h").2
        = [("s", Queue.Session.fresh "s" "h" 0)]) ∧
    (Queue.deleteSession
      (Queue.deleteSession [("s", Queue.Session.fresh "s" "h" 0)] "s" "h").2
      "s" "h").1 = false :=
  deleteSession_spec [("s", Queue.Session.fresh "s" "h" 0)] "s" "h" (by decide)

/-- C1: after `createSession(name, h₁)` succeeds (stamping `lastHostPoll :=
t₁`), a later `createSession(name, h₂)` fails with the name-taken error
whenever at most 10 seconds have passed since the stored `lastHostPoll`;
once more than 10 seconds elapse without a poll, the second call succeeds,
replacing the record (last-write-wins), and from then on — across any
further trace of non-create directory operations — `deleteSession(name, h₁)`
returns `false`. -/
theorem createSession_takeover (st st₁ : Queue.State) (t₁ t₂ : Nat)
    (name h₁ h₂ : String) (hwf : keysNodup st) (hne : h₁ ≠ h₂)
    (hfirst : Queue.createSession st t₁ name h₁ = (.ok, st₁)) :
    (t₂ - t₁ ≤ 10000 →
      Queue.createSession st₁ t₂ name h₂ =
        (.error "Session name already taken", st₁)) ∧
    (t₂ - t₁ > 10000 →
      (Queue.createSession st₁ t₂ name h₂).1 = .ok ∧
      jsGet (Queue.createSession st₁ t₂ name h₂).2 name =
        some (Queue.Session.fresh name h₂ t₂) ∧
      (∀ ops : List Queue.Op,
        Queue.deleteSession
          (Queue.applyOps (Queue.createSession st₁ t₂ name h₂).2 ops)
          name h₁ =
        (false, Queue.applyOps (Queue.createSession st₁ t₂ name h₂).2 ops))) := by
  have hst₁ : st₁ = jsSet st name (Queue.Session.fresh name h₁ t₁) := by
    cases hget : jsGet st name with
    | none =>
      simp only [Queue.createSession, hget, Prod.mk.injEq] at hfirst
      exact hfirst.2.symm
    | some existing =>
      by_cases hstale : t₁ - existing.lastHostPoll > 10000
      · simp only [Queue.createSession, hget, if_pos hstale,
          Prod.mk.injEq] at hfirst
        exact hfirst.2.symm
      · simp [Queue.createSession, hget, if_neg hstale] at hfirst
  have hget₁ : jsGet st₁ name = some (Queue.Session.fresh name h₁ t₁) := by
    rw [hst₁]; exact jsGet_jsSet_self st name _
  have hwf₁ : keysNodup st₁ := by
    rw [hst₁]; exact keysNodup_jsSet st name _ hwf
  constructor
  · intro hyoung
    have hcond : ¬ (t₂ - (Queue.Session.fresh name h₁ t₁).lastHostPoll
        > 10000) := by
      simp only [Queue.Session.fresh]
      omega
    simp [Queue.createSession, hget₁, if_neg hcond]
  · intro hstale
    have hcond : t₂ - (Queue.Session.fresh name h₁ t₁).lastHostPoll
        > 10000 := by
      simp only [Queue.Session.fresh]
      omega
    have hsecond : Queue.createSession st₁ t₂ name h₂ =
        (.ok, jsSet st₁ name (Queue.Session.fresh name h₂ t₂)) := by
      simp [Queue.createSession, hget₁, if_pos hcond]
    refine ⟨by simp [hsecond], ?_, ?_⟩
    · rw [hsecond]
      exact jsGet_jsSet_self st₁ name _
    · intro ops
      have hwf₂ : keysNodup (Queue.createSession st₁ t₂ name h₂).2 := by
        rw [hsecond]
        exact keysNodup_jsSet st₁ name _ hwf₁
      have hn₂ : Queue.hostNot (Queue.createSession st₁ t₂ name h₂).2
          name h₁ := by
        intro s hg
        rw [hsecond] at hg
        rw [jsGet_jsSet_self st₁ name _] at hg
        cases hg
        exact fun hcontra => hne hcontra.symm
      exact Queue.deleteSession_of_hostNot _ name h₁
        (Queue.hostNot_applyOps _ ops name h₁ hwf₂ hn₂)

/-- C1 witness: takeover on a concrete trace — create at `t=0` by `h1`,
re-create at `t=10001` by `h2`; the early re-create (covered by the first
conjunct at `t₂ = 10000`) fails name-taken. -/
theorem createSession_takeover_witness :
    (10001 - 0 > 10000 →
      (Queue.createSession (Queue.createSession [] 0 "s" "h1").2
        10001 "s" "h2").1 = .ok ∧
      jsGet (Queue.createSession (Queue.createSession [] 0 "s" "h1").2
        10001 "s" "h2").2 "s" = some (Queue.Session.fresh "s" "h2" 10001) ∧
      (∀ ops : List Queue.Op,
        Queue.deleteSession
          (Queue.applyOps (Queue.createSession
            (Queue.createSession [] 0 "s" "h1").2 10001 "s" "h2").2 ops)
          "s" "h1" =
        (false, Queue.applyOps (Queue.createSession
          (Queue.createSession [] 0 "s" "h1").2 10001 "s" "h2").2 ops))) ∧
    (10000 - 0 ≤ 10000 →
      Queue.createSession (Queue.createSession [] 0 "s" "h1").2
        10000 "s" "h2" =
        (.error "Session name already taken",
         (Queue.createSession [] 0 "s" "h1").2)) :=
  ⟨(createSession_takeover [] (Queue.createSession [] 0 "s" "h1").2
      0 10001 "s" "h1" "h2" (by decide) (by decide) (by decide)).2,
   (createSession_takeover [] (Queue.createSession [] 0 "s" "h1").2
      0 10000 "s" "h1" "h2" (by decide) (by decide) (by decide)).1⟩

/-- C2 counterexample: the claim says a second `joinSession` before a
`replaceOffer` "gets the busy failure".  Concretely: host creates "s" at
`t=0`, a first joiner consumes the offer at `t=5`; a second `joinSession`
at `t=10001` — still before any `replaceOffer` — finds the session stale
(`lastHostPoll = 0`) and returns role=host, not the busy failure. -/
theorem joinSession_second_after_stale_not_busy :
    (Slot.joinSession (Slot.joinSession
      (Slot.createSession [] 0 "s" "h" "o").2 5 "s").2 10001 "s").1 =
      JoinResult.host ∧
    JoinResult.host ≠ JoinResult.error "Session busy, try again" := by
  decide

/-- C2 (amended): a pending offer is delivered to at most one caller.  Once
`joinSession` returns role=joiner with an offer, the stored `currentOffer`
is null, so a second `joinSession` before a `replaceOffer` never obtains an
offer: it gets the busy failure while the session is non-stale, and role=host
once the session has gone stale.  And once `getJoinRequests` returns the
pending requests, they are marked consumed, so an immediately following
`getJoinRequests` returns an empty list. -/
theorem single_offer_consumption :
    (∀ (st st' : Slot.State) (t : Nat) (name off : String)
      (ex : Slot.Session),
      jsGet st name = some ex →
      Slot.joinSession st t name = (.joiner off, st') →
      jsGet st' name = some { ex with currentOffer := none } ∧
      (∀ t₂, t₂ - ex.lastHostPoll ≤ 10000 →
        Slot.joinSession st' t₂ name =
          (.error "Session busy, try again", st')) ∧
      (∀ t₂, (Slot.joinSession st' t₂ name).1 = .host ∨
        (Slot.joinSession st' t₂ name).1 =
          .error "Session busy, try again")) ∧
    (∀ (st st₁ : Queue.State) (t₁ t₂ : Nat) (name hostId : String)
      (reqs : List PendingReq),
      Queue.getJoinRequests st t₁ name hostId = (.ok reqs, st₁) →
      (Queue.getJoinRequests st₁ t₂ name hostId).1 = .ok []) := by
  constructor
  · intro st st' t name off ex hget hj
    have hyoung : ¬ (t - ex.lastHostPoll > 10000) := by
      by_contra hstale
      simp [Slot.joinSession, hget, if_pos hstale] at hj
    obtain ⟨o, hoff⟩ : ∃ o, ex.currentOffer = some o := by
      cases hoff : ex.currentOffer with
      | none => simp [Slot.joinSession, hget, if_neg hyoung, hoff] at hj
      | some o => exact ⟨o, rfl⟩
    have ho : o ≠ "" := by
      by_contra ho
      simp [Slot.joinSession, hget, if_neg hyoung, hoff, ho] at hj
    have hj' : off = o ∧
        st' = jsSet st name { ex with currentOffer := none } := by
      simpa [Slot.joinSession, hget, if_neg hyoung, hoff, ho, Prod.mk.injEq,
        eq_comm] using hj
    obtain ⟨rfl, rfl⟩ := hj'
    have hget' : jsGet (jsSet st name { ex with currentOffer := none }) name
        = some { ex with currentOffer := none } := jsGet_jsSet_self st name _
    refine ⟨hget', ?_, ?_⟩
    · intro t₂ ht₂
      have hcond : ¬ (t₂ -
          (Slot.Session.lastHostPoll { ex with currentOffer := none })
            > 10000) := by
        simp only []
        omega
      simp [Slot.joinSession, hget', if_neg hcond]
    · intro t₂
      by_cases hstale₂ : t₂ -
          Slot.Session.lastHostPoll { ex with currentOffer := none } > 10000
      · left
        simp [Slot.joinSession, hget', if_pos hstale₂]
      · right
        simp [Slot.joinSession, hget', if_neg hstale₂]
  · intro st st₁ t₁ t₂ name hostId reqs hreq
    cases hget : jsGet st name with
    | none => simp [Queue.getJoinRequests, hget] at hreq
    | some s =>
      by_cases hh : s.hostId ≠ hostId
      · simp [Queue.getJoinRequests, hget, if_pos hh] at hreq
      · have hpair := hreq
        simp only [Queue.getJoinRequests, hget, if_neg hh,
          Prod.mk.injEq] at hpair
        have hst₁ : st₁ = jsSet st name
            { s with lastHostPoll := t₁,
                     joinRequests := Queue.markConsumed s.joinRequests } :=
          hpair.2.symm
        have hget₁ : jsGet st₁ name = some
            { s with lastHostPoll := t₁,
                     joinRequests := Queue.markConsumed s.joinRequests } := by
          rw [hst₁]; exact jsGet_jsSet_self st name _
        simp [Queue.getJoinRequests, hget₁, hh,
          Queue.pendingOf_markConsumed]

/-- C2 witness: concrete run of both halves of `single_offer_consumption`. -/
theorem single_offer_consumption_witness :
    (jsGet [("s", { Slot.Session.fresh "s" "h" "o" 0 with
        currentOffer := none })] "s" =
      some { Slot.Session.fresh "s" "h" "o" 0 with currentOffer := none } ∧
      (∀ t₂, t₂ - (Slot.Session.fresh "s" "h" "o" 0).lastHostPoll ≤ 10000 →
        Slot.joinSession [("s", { Slot.Session.fresh "s" "h" "o" 0 with
            currentOffer := none })] t₂ "s" =
          (.error "Session busy, try again",
           [("s", { Slot.Session.fresh "s" "h" "o" 0 with
              currentOffer := none })])) ∧
      (∀ t₂, (Slot.joinSession [("s", { Slot.Session.fresh "s" "h" "o" 0 with
          currentOffer := none })] t₂ "s").1 = .host ∨
        (Slot.joinSession [("s", { Slot.Session.fresh "s" "h" "o" 0 with
          currentOffer := none })] t₂ "s").1 =
          .error "Session busy, try again")) ∧
    (Queue.getJoinRequests
      (Queue.getJoinRequests
        (Queue.submitJoinRequest (Queue.createSession [] 0 "s" "h").2
          3 "s" "p" "off").2 7 "s" "h").2 9 "s" "h").1 = .ok [] :=
  ⟨single_offer_consumption.1
      [("s", Slot.Session.fresh "s" "h" "o" 0)]
      [("s", { Slot.Session.fresh "s" "h" "o" 0 with currentOffer := none })]
      5 "s" "o" (Slot.Session.fresh "s" "h" "o" 0) (by decide) (by decide),
   single_offer_consumption.2
      (Queue.submitJoinRequest (Queue.createSession [] 0 "s" "h").2
        3 "s" "p" "off").2
      (Queue.getJoinRequests
        (Queue.submitJoinRequest (Queue.createSession [] 0 "s" "h").2
          3 "s" "p" "off").2 7 "s" "h").2
      7 9 "s" "h" [{ peerId := "p", offer := "off" }] (by decide)⟩

/-- C3 counterexample: the claim says `getAnswer` returns *every* stored
answer.  Store the (empty-string) answer `""` for peer "p": it is in the
`answers` map, yet `getAnswer` answers "No answer yet" and deletes nothing,
because JS `if (!answer)` also fires on `""`. -/
theorem getAnswer_empty_answer_not_returned :
    jsGet (Queue.submitAnswer (Queue.createSession [] 0 "s" "h").2
      "s" "p" "").2 "s" =
      some { name := "s", hostId := "h", createdAt := 0, lastHostPoll := 0,
             joinRequests := [], answers := [("p", "")] } ∧
    Queue.getAnswer (Queue.submitAnswer (Queue.createSession [] 0 "s" "h").2
      "s" "p" "").2 "s" "p" =
      (.error "No answer yet",
       (Queue.submitAnswer (Queue.createSession [] 0 "s" "h").2
         "s" "p" "").2) := by
  decide

/-- C3 (amended): every stored *non-empty* answer is consumed exactly once.
`getAnswer(name, peerId)` returns it and atomically deletes both the answer
and that peer's join request, so a second `getAnswer` before a new
`submitAnswer` returns the "No answer yet" failure; `pollAnswer(name,
hostId)` returns the pending `{peerId, answer}` and clears the slot, so an
immediately following `pollAnswer` returns `peerId` null. -/
theorem answer_single_consumption :
    (∀ (st : Queue.State) (name pid a : String) (s : Queue.Session),
      keysNodup s.answers →
      jsGet st name = some s → jsGet s.answers pid = some a → a ≠ "" →
      Queue.getAnswer st name pid =
        (.ok a, jsSet st name
          { s with answers := jsDelete s.answers pid,
                   joinRequests := jsDelete s.joinRequests pid }) ∧
      (Queue.getAnswer (Queue.getAnswer st name pid).2 name pid).1 =
        .error "No answer yet") ∧
    (∀ (st : Slot.State) (t t₂ : Nat) (name hid pid ans : String)
      (s : Slot.Session),
      jsGet st name = some s → s.hostId = hid →
      s.pendingAnswer = some (pid, ans) →
      Slot.pollAnswer st t name hid =
        (.found pid ans, jsSet st name
          { s with lastHostPoll := t, pendingAnswer := none }) ∧
      (Slot.pollAnswer (Slot.pollAnswer st t name hid).2 t₂ name hid).1 =
        .noAnswer) := by
  constructor
  · intro st name pid a s hwfa hget hans hne
    have h₁ : Queue.getAnswer st name pid =
        (.ok a, jsSet st name
          { s with answers := jsDelete s.answers pid,
                   joinRequests := jsDelete s.joinRequests pid }) := by
      simp [Queue.getAnswer, hget, hans, hne]
    refine ⟨h₁, ?_⟩
    rw [h₁]
    have hget' : jsGet (jsSet st name
        { s with answers := jsDelete s.answers pid,
                 joinRequests := jsDelete s.joinRequests pid }) name =
        some { s with answers := jsDelete s.answers pid,
                      joinRequests := jsDelete s.joinRequests pid } :=
      jsGet_jsSet_self st name _
    have hnone : jsGet (jsDelete s.answers pid) pid = none :=
      jsGet_jsDelete_self s.answers pid hwfa
    simp [Queue.getAnswer, hget', hnone]
  · intro st t t₂ name hid pid ans s hget hh hpend
    have hne : ¬ (s.hostId ≠ hid) := fun hcon => hcon hh
    have h₁ : Slot.pollAnswer st t name hid =
        (.found pid ans, jsSet st name
          { s with lastHostPoll := t, pendingAnswer := none }) := by
      simp [Slot.pollAnswer, hget, if_neg hne, hpend]
    refine ⟨h₁, ?_⟩
    rw [h₁]
    have hget' : jsGet (jsSet st name
        { s with lastHostPoll := t, pendingAnswer := none }) name =
        some { s with lastHostPoll := t, pendingAnswer := none } :=
      jsGet_jsSet_self st name _
    simp [Slot.pollAnswer, hget', hne]

/-- C3 witness: concrete run of both halves of `answer_single_consumption`. -/
theorem answer_single_consumption_witness :
    (Queue.getAnswer
      [("s", { name := "s", hostId := "h", createdAt := 0, lastHostPoll := 0,
               joinRequests := [("p", ⟨"p", "off", 0, true⟩)],
               answers := [("p", "ans")] })] "s" "p" =
      (.ok "ans", jsSet
        [("s", { name := "s", hostId := "h", createdAt := 0, lastHostPoll := 0,
                 joinRequests := [("p", ⟨"p", "off", 0, true⟩)],
                 answers := [("p", "ans")] })] "s"
        { name := "s", hostId := "h", createdAt := 0, lastHostPoll := 0,
          joinRequests := jsDelete [("p", ⟨"p", "off", 0, true⟩)] "p",
          answers := jsDelete [("p", "ans")] "p" }) ∧
      (Queue.getAnswer (Queue.getAnswer
        [("s", { name := "s", hostId := "h", createdAt := 0, lastHostPoll := 0,
                 joinRequests := [("p", ⟨"p", "off", 0, true⟩)],
                 answers := [("p", "ans")] })] "s" "p").2 "s" "p").1 =
        .error "No answer yet") ∧
    (Slot.pollAnswer
      [("s", { name := "s", hostId := "h", createdAt := 0, lastHostPoll := 0,
               currentOffer := none,
               pendingAnswer := some ("p", "ans") })] 4 "s" "h" =
      (.found "p" "ans", jsSet
        [("s", { name := "s", hostId := "h", createdAt := 0, lastHostPoll := 0,
                 currentOffer := none,
                 pendingAnswer := some ("p", "ans") })] "s"
        { name := "s", hostId := "h", createdAt := 0, lastHostPoll := 4,
          currentOffer := none, pendingAnswer := none }) ∧
      (Slot.pollAnswer (Slot.pollAnswer
        [("s", { name := "s", hostId := "h", createdAt := 0, lastHostPoll := 0,
                 currentOffer := none,
                 pendingAnswer := some ("p", "ans") })] 4 "s" "h").2
        6 "s" "h").1 = .noAnswer) :=
  ⟨answer_single_consumption.1
      [("s", { name := "s", hostId := "h", createdAt := 0, lastHostPoll := 0,
               joinRequests := [("p", ⟨"p", "off", 0, true⟩)],
               answers := [("p", "ans")] })] "s" "p" "ans"
      { name := "s", hostId := "h", createdAt := 0, lastHostPoll := 0,
        joinRequests := [("p", ⟨"p", "off", 0, true⟩)],
        answers := [("p", "ans")] }
      (by decide) (by decide) (by decide) (by decide),
   answer_single_consumption.2
      [("s", { name := "s", hostId := "h", createdAt := 0, lastHostPoll := 0,
               currentOffer := none, pendingAnswer := some ("p", "ans") })]
      4 6 "s" "h" "p" "ans"
      { name := "s", hostId := "h", createdAt := 0, lastHostPoll := 0,
        currentOffer := none, pendingAnswer := some ("p", "ans") }
      (by decide) (by decide) (by decide)⟩

/-- C4 counterexample: the claim says a non-stale session holding a
*non-null* `currentOffer` yields role=joiner with that offer.  A session
created with the empty-string offer holds `currentOffer = some ""` (non-null),
is non-stale at `t = 0`, yet `joinSession` returns the busy failure, because
JS `if (existing.currentOffer)` is false for `""`. -/
theorem joinSession_empty_offer_busy :
    (Slot.createSession [] 0 "s" "h" "").2 =
      [("s", Slot.Session.fresh "s" "h" "" 0)] ∧
    (Slot.Session.fresh "s" "h" "" 0).currentOffer = some "" ∧
    Slot.joinSession [("s", Slot.Session.fresh "s" "h" "" 0)] 0 "s" =
      (.error "Session busy, try again",
       [("s", Slot.Session.fresh "s" "h" "" 0)]) ∧
    (∀ off, JoinResult.error "Session busy, try again" ≠
      JoinResult.joiner off) := by
  refine ⟨by decide, by decide, by decide, ?_⟩
  intro off hcon
  cases hcon

/-- C4 (amended): `joinSession(name)` returns role=host when no session
exists; deletes the stale record and returns role=host when `lastHostPoll`
is more than 10s old; returns role=joiner, atomically consuming the offer,
when a non-stale session holds a non-null, *non-empty* `currentOffer`; and
returns the busy failure when a non-stale session's `currentOffer` is null
or empty. -/
theorem joinSession_spec (st : Slot.State) (t : Nat) (name : String)
    (hwf : keysNodup st) :
    (jsGet st name = none → Slot.joinSession st t name = (.host, st)) ∧
    (∀ ex, jsGet st name = some ex → t - ex.lastHostPoll > 10000 →
      Slot.joinSession st t name = (.host, jsDelete st name) ∧
      jsGet (Slot.joinSession st t name).2 name = none) ∧
    (∀ ex off, jsGet st name = some ex → t - ex.lastHostPoll ≤ 10000 →
      ex.currentOffer = some off → off ≠ "" →
      Slot.joinSession st t name =
        (.joiner off, jsSet st name { ex with currentOffer := none })) ∧
    (∀ ex, jsGet st name = some ex → t - ex.lastHostPoll ≤ 10000 →
      (ex.currentOffer = none ∨ ex.currentOffer = some "") →
      Slot.joinSession st t name =
        (.error "Session busy, try again", st)) := by
  refine ⟨?_, ?_, ?_, ?_⟩
  · intro hget
    simp [Slot.joinSession, hget]
  · intro ex hget hstale
    have h₁ : Slot.joinSession st t name = (.host, jsDelete st name) := by
      simp [Slot.joinSession, hget, if_pos hstale]
    exact ⟨h₁, by rw [h₁]; exact jsGet_jsDelete_self st name hwf⟩
  · intro ex off hget hyoung hoff hne
    have hcond : ¬ (t - ex.lastHostPoll > 10000) := by omega
    simp [Slot.joinSession, hget, if_neg hcond, hoff, hne]
  · intro ex hget hyoung hoff
    have hcond : ¬ (t - ex.lastHostPoll > 10000) := by omega
    rcases hoff with hoff | hoff <;>
      simp [Slot.joinSession, hget, if_neg hcond, hoff]

/-- C4 witness: concrete run of all four branches of `joinSession_spec`. -/
theorem joinSession_spec_witness :
    (jsGet ([] : Slot.State) "s" = none →
      Slot.joinSession [] 0 "s" = (.host, [])) ∧
    (∀ ex, jsGet [("s", Slot.Session.fresh "s" "h" "o" 0)] "s" = some ex →
      20000 - ex.lastHostPoll > 10000 →
      Slot.joinSession [("s", Slot.Session.fresh "s" "h" "o" 0)] 20000 "s" =
        (.host, jsDelete [("s", Slot.Session.fresh "s" "h" "o" 0)] "s") ∧
      jsGet (Slot.joinSession [("s", Slot.Session.fresh "s" "h" "o" 0)]
        20000 "s").2 "s" = none) ∧
    (∀ ex off,
      jsGet [("s", Slot.Session.fresh "s" "h" "o" 0)] "s" = some ex →
      20000 - ex.lastHostPoll ≤ 10000 →
      ex.currentOffer = some off → off ≠ "" →
      Slot.joinSession [("s", Slot.Session.fresh "s" "h" "o" 0)] 20000 "s" =
        (.joiner off, jsSet [("s", Slot.Session.fresh "s" "h" "o" 0)] "s"
          { ex with currentOffer := none })) ∧
    (∀ ex, jsGet [("s", Slot.Session.fresh "s" "h" "o" 0)] "s" = some ex →
      20000 - ex.lastHostPoll ≤ 10000 →
      (ex.currentOffer = none ∨ ex.currentOffer = some "") →
      Slot.joinSession [("s", Slot.Session.fresh "s" "h" "o" 0)] 20000 "s" =
        (.error "Session busy, try again",
         [("s", Slot.Session.fresh "s" "h" "o" 0)])) :=
  ⟨(joinSession_spec [] 0 "s" (by decide)).1,
   (joinSession_spec [("s", Slot.Session.fresh "s" "h" "o" 0)] 20000 "s"
     (by decide)).2.1,
   (joinSession_spec [("s", Slot.Session.fresh "s" "h" "o" 0)] 20000 "s"
     (by decide)).2.2.1,
   (joinSession_spec [("s", Slot.Session.fresh "s" "h" "o" 0)] 20000 "s"
     (by decide)).2.2.2⟩

/-- C6 counterexample: the claim requires every directory operation's failure
variant to carry a machine-distinguishable reason covering not-found and
not-host.  `deleteSession` returns a bare boolean: called on a missing
session and called with a wrong host token it returns the *identical* value
`false`, so its two failure causes are not machine-distinguishable. -/
theorem deleteSession_no_failure_reason :
    (Queue.deleteSession [] "s" "h1").1 = false ∧
    (Queue.deleteSession [("s", Queue.Session.fresh "s" "h2" 0)]
      "s" "h1").1 = false ∧
    jsGet ([] : Queue.State) "s" = none ∧
    jsGet [("s", Queue.Session.fresh "s" "h2" 0)] "s" =
      some (Queue.Session.fresh "s" "h2" 0) ∧
    (Queue.Session.fresh "s" "h2" 0).hostId ≠ "h1" := by
  decide

/-- C6 (amended): every Session Directory operation is total on all string
inputs and returns a tagged result that never escapes as an exception.
Every operation *except* `deleteSession` carries a machine-distinguishable
reason string among not-found ("Session not found"), not-host ("Not the
host"), name-taken ("Session name already taken"), busy ("Session busy, try
again") and no-answer-yet ("No answer yet"); `deleteSession` signals failure
as a bare `false` conflating not-found with not-host. -/
theorem directory_results_tagged :
    (∀ (st : Queue.State) (now : Nat) (n h : String),
      (Queue.createSession st now n h).1 = .ok ∨
      (Queue.createSession st now n h).1 =
        .error "Session name already taken") ∧
    (∀ (st : Queue.State) (now : Nat) (n p o : String),
      (Queue.submitJoinRequest st now n p o).1 = .ok ∨
      (Queue.submitJoinRequest st now n p o).1 =
        .error "Session not found") ∧
    (∀ (st : Queue.State) (now : Nat) (n h : String),
      (∃ reqs, (Queue.getJoinRequests st now n h).1 = .ok reqs) ∨
      (Queue.getJoinRequests st now n h).1 = .error "Session not found" ∨
      (Queue.getJoinRequests st now n h).1 = .error "Not the host") ∧
    (∀ (st : Queue.State) (n p a : String),
      (Queue.submitAnswer st n p a).1 = .ok ∨
      (Queue.submitAnswer st n p a).1 = .error "Session not found") ∧
    (∀ (st : Queue.State) (n p : String),
      (∃ a, (Queue.getAnswer st n p).1 = .ok a) ∨
      (Queue.getAnswer st n p).1 = .error "Session not found" ∨
      (Queue.getAnswer st n p).1 = .error "No answer yet") ∧
    (∀ (st : Slot.State) (now : Nat) (n : String),
      (Slot.joinSession st now n).1 = .host ∨
      (∃ off, (Slot.joinSession st now n).1 = .joiner off) ∨
      (Slot.joinSession st now n).1 = .error "Session busy, try again") ∧
    (∀ (st : Slot.State) (now : Nat) (n h o : String),
      (Slot.createSession st now n h o).1 = .ok ∨
      (Slot.createSession st now n h o).1 =
        .error "Session name already taken") ∧
    (∀ (st : Slot.State) (n p a : String),
      (Slot.submitAnswer st n p a).1 = .ok ∨
      (Slot.submitAnswer st n p a).1 = .error "Session not found") ∧
    (∀ (st : Slot.State) (now : Nat) (n h : String),
      (∃ p a, (Slot.pollAnswer st now n h).1 = .found p a) ∨
      (Slot.pollAnswer st now n h).1 = .noAnswer ∨
      (Slot.pollAnswer st now n h).1 = .error "Session not found" ∨
      (Slot.pollAnswer st now n h).1 = .error "Not the host") ∧
    (∀ (st : Slot.State) (n h o : String),
      (Slot.replaceOffer st n h o).1 = .ok ∨
      (Slot.replaceOffer st n h o).1 = .error "Session not found" ∨
      (Slot.replaceOffer st n h o).1 = .error "Not the host") ∧
    (∀ (st : Queue.State) (n h : String),
      (Queue.deleteSession st n h).1 = false ↔
        ¬ ∃ s, jsGet st n = some s ∧ s.hostId = h) := by
  refine ⟨?_, ?_, ?_, ?_, ?_, ?_, ?_, ?_, ?_, ?_, ?_⟩
  · intro st now n h
    cases hget : jsGet st n with
    | none => simp [Queue.createSession, hget]
    | some ex =>
      by_cases hstale : now - ex.lastHostPoll > 10000 <;>
        simp [Queue.createSession, hget, hstale]
  · intro st now n p o
    cases hget : jsGet st n with
    | none => simp [Queue.submitJoinRequest, hget]
    | some s => simp [Queue.submitJoinRequest, hget]
  · intro st now n h
    cases hget : jsGet st n with
    | none => simp [Queue.getJoinRequests, hget]
    | some s =>
      by_cases hh : s.hostId ≠ h
      · simp [Queue.getJoinRequests, hget, hh]
      · exact Or.inl ⟨Queue.pendingOf s.joinRequests,
          by simp [Queue.getJoinRequests, hget, hh]⟩
  · intro st n p a
    cases hget : jsGet st n with
    | none => simp [Queue.submitAnswer, hget]
    | some s => simp [Queue.submitAnswer, hget]
  · intro st n p
    cases hget : jsGet st n with
    | none => simp [Queue.getAnswer, hget]
    | some s =>
      cases hans : jsGet s.answers p with
      | none => simp [Queue.getAnswer, hget, hans]
      | some a =>
        by_cases ha : a = ""
        · simp [Queue.getAnswer, hget, hans, ha]
        · exact Or.inl ⟨a, by simp [Queue.getAnswer, hget, hans, ha]⟩
  · intro st now n
    cases hget : jsGet st n with
    | none => simp [Slot.joinSession, hget]
    | some ex =>
      by_cases hstale : now - ex.lastHostPoll > 10000
      · simp [Slot.joinSession, hget, hstale]
      · cases hoff : ex.currentOffer with
        | none => simp [Slot.joinSession, hget, hstale, hoff]
        | some o =>
          by_cases ho : o = ""
          · simp [Slot.joinSession, hget, hstale, hoff, ho]
          · exact Or.inr (Or.inl ⟨o,
              by simp [Slot.joinSession, hget, hstale, hoff, ho]⟩)
  · intro st now n h o
    cases hget : jsGet st n with
    | none => simp [Slot.createSession, hget]
    | some ex =>
      by_cases hstale : now - ex.lastHostPoll > 10000 <;>
        simp [Slot.createSession, hget, hstale]
  · intro st n p a
    cases hget : jsGet st n with
    | none => simp [Slot.submitAnswer, hget]
    | some s => simp [Slot.submitAnswer, hget]
  · intro st now n h
    cases hget : jsGet st n with
    | none => simp [Slot.pollAnswer, hget]
    | some s =>
      by_cases hh : s.hostId ≠ h
      · simp [Slot.pollAnswer, hget, hh]
      · cases hpend : s.pendingAnswer with
        | none => simp [Slot.pollAnswer, hget, hh, hpend]
        | some pa =>
          exact Or.inl ⟨pa.1, pa.2,
            by simp [Slot.pollAnswer, hget, hh, hpend]⟩
  · intro st n h o
    cases hget : jsGet st n with
    | none => simp [Slot.replaceOffer, hget]
    | some s =>
      by_cases hh : s.hostId ≠ h <;> simp [Slot.replaceOffer, hget, hh]
  · intro st n h
    cases hget : jsGet st n with
    | none => simp [Queue.deleteSession, hget]
    | some s =>
      by_cases hh : s.hostId = h <;>
        simp [Queue.deleteSession, hget, hh]

/-- Every broadcast effect is a `send` of the broadcast payload. -/
theorem mem_broadcastUpdate_shape (peers : List (String × Relay.PeerEntry))
    (update : Relay.Update) (ex : Option String) (eff : Relay.Effect)
    (h : eff ∈ Relay.broadcastUpdate peers update ex) :
    ∃ q, eff = .send q update := by
  unfold Relay.broadcastUpdate at h
  rw [List.mem_filterMap] at h
  obtain ⟨⟨k, e⟩, _, heq⟩ := h
  by_cases hex : some k = ex
  · simp [hex] at heq
  · simp only [if_neg hex] at heq
    match hdc : e.dc with
    | none => simp [hdc] at heq
    | some dc =>
      simp only [hdc] at heq
      by_cases hop : dc.readyState = "open"
      · simp only [if_pos hop, Option.some_inj] at heq
        exact ⟨k, heq.symm⟩
      · simp [hop] at heq

/-- C7: on a data-channel message from peer P the host applies the update to
the document tagged "remote" first, then sends that same update to exactly
the registry entries with an open data channel other than P; a joiner's
message handler only applies the update and never re-broadcasts; a
locally-originated update (origin not "remote") is broadcast with no peer
excluded, while a "remote"-tagged update is not re-broadcast by this
handler. -/
theorem star_relay (peers : List (String × Relay.PeerEntry))
    (fromPeerId pid origin : String) (data update : Relay.Update) :
    (Relay.makeHostOnMessage peers fromPeerId data).head? =
      some (.applyUpdate data "remote") ∧
    (Relay.Effect.send pid data ∈
        Relay.makeHostOnMessage peers fromPeerId data ↔
      pid ≠ fromPeerId ∧ ∃ e, (pid, e) ∈ peers ∧ Relay.dcOpen e) ∧
    (∀ eff ∈ Relay.makeHostOnMessage peers fromPeerId data,
      eff = .applyUpdate data "remote" ∨ ∃ q, eff = .send q data) ∧
    Relay.joinerOnMessage data = [.applyUpdate data "remote"] ∧
    (origin ≠ "remote" →
      (Relay.Effect.send pid update ∈
          Relay.onDocUpdate peers update origin ↔
        ∃ e, (pid, e) ∈ peers ∧ Relay.dcOpen e)) ∧
    (origin = "remote" → Relay.onDocUpdate peers update origin = []) := by
  refine ⟨rfl, ?_, ?_, rfl, ?_, ?_⟩
  · rw [Relay.makeHostOnMessage, List.mem_cons,
      Relay.send_mem_broadcastUpdate]
    simp
  · intro eff heff
    rw [Relay.makeHostOnMessage, List.mem_cons] at heff
    rcases heff with heff | heff
    · exact Or.inl heff
    · exact Or.inr (mem_broadcastUpdate_shape peers data _ eff heff)
  · intro horigin
    rw [Relay.onDocUpdate, if_neg horigin, Relay.send_mem_broadcastUpdate]
    simp
  · intro horigin
    rw [Relay.onDocUpdate, if_pos horigin]

/-- C7 witness: three peers — "p1" (open channel, the sender), "p2" (open
channel), "p3" (no channel yet) — with a locally-originated update tagged
"local". -/
theorem star_relay_witness :
    (Relay.makeHostOnMessage
      [("p1", ⟨"p1", some ⟨"open"⟩⟩), ("p2", ⟨"p2", some ⟨"open"⟩⟩),
       ("p3", ⟨"p3", none⟩)] "p1" [7]).head? =
      some (.applyUpdate [7] "remote") ∧
    (Relay.Effect.send "p2" [7] ∈ Relay.makeHostOnMessage
      [("p1", ⟨"p1", some ⟨"open"⟩⟩), ("p2", ⟨"p2", some ⟨"open"⟩⟩),
       ("p3", ⟨"p3", none⟩)] "p1" [7] ↔
      "p2" ≠ "p1" ∧ ∃ e, ("p2", e) ∈
        [("p1", (⟨"p1", some ⟨"open"⟩⟩ : Relay.PeerEntry)),
         ("p2", ⟨"p2", some ⟨"open"⟩⟩), ("p3", ⟨"p3", none⟩)] ∧
        Relay.dcOpen e) ∧
    (∀ eff ∈ Relay.makeHostOnMessage
      [("p1", ⟨"p1", some ⟨"open"⟩⟩), ("p2", ⟨"p2", some ⟨"open"⟩⟩),
       ("p3", ⟨"p3", none⟩)] "p1" [7],
      eff = .applyUpdate [7] "remote" ∨ ∃ q, eff = .send q [7]) ∧
    Relay.joinerOnMessage [7] = [.applyUpdate [7] "remote"] ∧
    ("local" ≠ "remote" →
      (Relay.Effect.send "p2" [9] ∈ Relay.onDocUpdate
        [("p1", ⟨"p1", some ⟨"open"⟩⟩), ("p2", ⟨"p2", some ⟨"open"⟩⟩),
         ("p3", ⟨"p3", none⟩)] [9] "local" ↔
        ∃ e, ("p2", e) ∈
          [("p1", (⟨"p1", some ⟨"open"⟩⟩ : Relay.PeerEntry)),
           ("p2", ⟨"p2", some ⟨"open"⟩⟩), ("p3", ⟨"p3", none⟩)] ∧
          Relay.dcOpen e)) ∧
    ("local" = "remote" → Relay.onDocUpdate
      [("p1", ⟨"p1", some ⟨"open"⟩⟩), ("p2", ⟨"p2", some ⟨"open"⟩⟩),
       ("p3", ⟨"p3", none⟩)] [9] "local" = []) :=
  star_relay
    [("p1", ⟨"p1", some ⟨"open"⟩⟩), ("p2", ⟨"p2", some ⟨"open"⟩⟩),
     ("p3", ⟨"p3", none⟩)] "p1" "p2" "local" [7] [9]

/-- C8: for every well-formed `SignalBlob` (a session description plus ICE
candidates, strings in `btoa`'s Latin-1 domain as all real SDP is),
`decode (encode blob)` succeeds and returns the blob's JSON structure
field-for-field (reading it back as a blob recovers `blob` exactly); and
`decode` of any input that is not base64-encoded JSON fails with the single
distinguishable error "Invalid signaling data" — on no input does a
lower-level parsing exception escape: every result is a success or that one
error. -/
theorem encode_decode_roundtrip :
    (∀ b : SignalBlob, blobLatin1 b →
      encode b = some (btoaBytes (stringify (blobToJson b))) ∧
      decode (btoaBytes (stringify (blobToJson b))) = .ok (blobToJson b) ∧
      jsonAsBlob (blobToJson b) = some b) ∧
    (∀ l : List Nat,
      decode l = .error "Invalid signaling data" ∨ ∃ j, decode l = .ok j) ∧
    (∀ l : List Nat,
      (atob l = none ∨ ∃ t, atob l = some t ∧ parseJson t = none) →
      decode l = .error "Invalid signaling data") := by
  refine ⟨?_, ?_, ?_⟩
  · intro b hb
    have hlat : ∀ c ∈ stringify (blobToJson b), c < 256 :=
      stringify_latin1 (blobToJson b) (blobLatin1_json b hb)
    obtain ⟨henc, hdec⟩ := atob_btoa (stringify (blobToJson b)) hlat
    refine ⟨?_, ?_, jsonAsBlob_blobToJson b⟩
    · rw [encode]
      exact henc
    · rw [decode, hdec]
      simp only []
      rw [parseJson_stringify]
  · intro l
    cases hat : atob l with
    | none => exact Or.inl (by rw [decode, hat])
    | some t =>
      cases hpj : parseJson t with
      | none => exact Or.inl (by rw [decode, hat]; simp only []; rw [hpj])
      | some j => exact Or.inr ⟨j, by rw [decode, hat]; simp only []; rw [hpj]⟩
  · intro l h
    rcases h with hat | ⟨t, hat, hpj⟩
    · rw [decode, hat]
    · rw [decode, hat]
      simp only []
      rw [hpj]

/-- C8 witness: a concrete offer blob with one ICE candidate round-trips
through `encode`/`decode`. -/
theorem encode_decode_roundtrip_witness :
    encode { sdp := { type := codeUnits "offer", sdp := codeUnits "v=0" },
             candidates := [{ candidate := codeUnits "candidate:1 1 udp 1 h 9 typ host",
                              sdpMid := some (codeUnits "0"),
                              sdpMLineIndex := some 0,
                              usernameFragment := none }] } =
      some (btoaBytes (stringify (blobToJson
        { sdp := { type := codeUnits "offer", sdp := codeUnits "v=0" },
          candidates := [{ candidate := codeUnits "candidate:1 1 udp 1 h 9 typ host",
                           sdpMid := some (codeUnits "0"),
                           sdpMLineIndex := some 0,
                           usernameFragment := none }] }))) ∧
    decode (btoaBytes (stringify (blobToJson
        { sdp := { type := codeUnits "offer", sdp := codeUnits "v=0" },
          candidates := [{ candidate := codeUnits "candidate:1 1 udp 1 h 9 typ host",
                           sdpMid := some (codeUnits "0"),
                           sdpMLineIndex := some 0,
                           usernameFragment := none }] }))) =
      .ok (blobToJson
        { sdp := { type := codeUnits "offer", sdp := codeUnits "v=0" },
          candidates := [{ candidate := codeUnits "candidate:1 1 udp 1 h 9 typ host",
                           sdpMid := some (codeUnits "0"),
                           sdpMLineIndex := some 0,
                           usernameFragment := none }] }) ∧
    jsonAsBlob (blobToJson
        { sdp := { type := codeUnits "offer", sdp := codeUnits "v=0" },
          candidates := [{ candidate := codeUnits "candidate:1 1 udp 1 h 9 typ host",
                           sdpMid := some (codeUnits "0"),
                           sdpMLineIndex := some 0,
                           usernameFragment := none }] }) =
      some { sdp := { type := codeUnits "offer", sdp := codeUnits "v=0" },
             candidates := [{ candidate := codeUnits "candidate:1 1 udp 1 h 9 typ host",
                              sdpMid := some (codeUnits "0"),
                              sdpMLineIndex := some 0,
                              usernameFragment := none }] } :=
  encode_decode_roundtrip.1
    { sdp := { type := codeUnits "offer", sdp := codeUnits "v=0" },
      candidates := [{ candidate := codeUnits "candidate:1 1 udp 1 h 9 typ host",
                       sdpMid := some (codeUnits "0"),
                       sdpMLineIndex := some 0,
                       usernameFragment := none }] }
    (by decide)

/-- C9: a successful `createSession` installs a completely fresh record:
timestamps set to the current time, handshake state reset (empty
`joinRequests`/`answers` in the queue model; `currentOffer` set to the given
offer and `pendingAnswer` null in the single-slot model), discarding anything
a previous session left under that name. -/
theorem createSession_installs_fresh (stq : Queue.State) (sts : Slot.State)
    (tq ts : Nat) (nq hq ns hs off : String)
    (hokq : (Queue.createSession stq tq nq hq).1 = .ok)
    (hoks : (Slot.createSession sts ts ns hs off).1 = .ok) :
    jsGet (Queue.createSession stq tq nq hq).2 nq =
      some { name := nq, hostId := hq, createdAt := tq, lastHostPoll := tq,
             joinRequests := [], answers := [] } ∧
    jsGet (Slot.createSession sts ts ns hs off).2 ns =
      some { name := ns, hostId := hs, createdAt := ts, lastHostPoll := ts,
             currentOffer := some off, pendingAnswer := none } := by
  constructor
  · cases hget : jsGet stq nq with
    | none =>
      simp only [Queue.createSession, hget]
      exact jsGet_jsSet_self stq nq _
    | some existing =>
      by_cases hstale : tq - existing.lastHostPoll > 10000
      · simp only [Queue.createSession, hget, if_pos hstale]
        exact jsGet_jsSet_self stq nq _
      · exfalso
        simp [Queue.createSession, hget, if_neg hstale] at hokq
  · cases hget : jsGet sts ns with
    | none =>
      simp only [Slot.createSession, hget]
      exact jsGet_jsSet_self sts ns _
    | some existing =>
      by_cases hstale : ts - existing.lastHostPoll > 10000
      · simp only [Slot.createSession, hget, if_pos hstale]
        exact jsGet_jsSet_self sts ns _
      · exfalso
        simp [Slot.createSession, hget, if_neg hstale] at hoks

/-- C9 witness: stale takeover at `t = 20050` over sessions created at
`t = 0` with pending handshake state; the records are reset wholesale. -/
theorem createSession_installs_fresh_witness :
    jsGet (Queue.createSession
      (Queue.submitJoinRequest (Queue.createSession [] 0 "a" "h1").2
        0 "a" "p" "off").2 20050 "a" "h2").2 "a" =
      some { name := "a", hostId := "h2", createdAt := 20050,
             lastHostPoll := 20050, joinRequests := [], answers := [] } ∧
    jsGet (Slot.createSession
      (Slot.submitAnswer (Slot.createSession [] 0 "b" "h1" "o1").2
        "b" "p" "ans").2 20050 "b" "h2" "o2").2 "b" =
      some { name := "b", hostId := "h2", createdAt := 20050,
             lastHostPoll := 20050, currentOffer := some "o2",
             pendingAnswer := none } :=
  createSession_installs_fresh
    (Queue.submitJoinRequest (Queue.createSession [] 0 "a" "h1").2
      0 "a" "p" "off").2
    (Slot.submitAnswer (Slot.createSession [] 0 "b" "h1" "o1").2
      "b" "p" "ans").2
    20050 20050 "a" "h2" "b" "h2" "o2" (by decide) (by decide)

/-- C10: in the single-slot model, `submitAnswer` on an existing session
unconditionally overwrites the single `pendingAnswer` slot — whatever answer
was pending (from any peer) is replaced, and the call always succeeds; no
rejection, queueing, or per-peer keying happens in this model. -/
theorem submitAnswer_overwrites_slot (st : Slot.State)
    (name peerId answer : String) (s : Slot.Session)
    (hget : jsGet st name = some s) :
    Slot.submitAnswer st name peerId answer =
      (.ok, jsSet st name { s with pendingAnswer := some (peerId, answer) }) ∧
    jsGet (Slot.submitAnswer st name peerId answer).2 name =
      some { s with pendingAnswer := some (peerId, answer) } := by
  have h₁ : Slot.submitAnswer st name peerId answer =
      (.ok, jsSet st name { s with pendingAnswer := some (peerId, answer) }) := by
    simp [Slot.submitAnswer, hget]
  exact ⟨h₁, by rw [h₁]; exact jsGet_jsSet_self st name _⟩

/-- C10 witness: a pending answer from peer "p1" is silently replaced by
peer "p2"'s answer. -/
theorem submitAnswer_overwrites_slot_witness :
    Slot.submitAnswer
      [("s", { name := "s", hostId := "h", createdAt := 0, lastHostPoll := 0,
               currentOffer := none,
               pendingAnswer := some ("p1", "a1") })] "s" "p2" "a2" =
      (.ok, jsSet
        [("s", { name := "s", hostId := "h", createdAt := 0, lastHostPoll := 0,
                 currentOffer := none,
                 pendingAnswer := some ("p1", "a1") })] "s"
        { name := "s", hostId := "h", createdAt := 0, lastHostPoll := 0,
          currentOffer := none, pendingAnswer := some ("p2", "a2") }) ∧
    jsGet (Slot.submitAnswer
      [("s", { name := "s", hostId := "h", createdAt := 0, lastHostPoll := 0,
               currentOffer := none,
               pendingAnswer := some ("p1", "a1") })] "s" "p2" "a2").2 "s" =
      some { name := "s", hostId := "h", createdAt := 0, lastHostPoll := 0,
             currentOffer := none, pendingAnswer := some ("p2", "a2") } :=
  submitAnswer_overwrites_slot
    [("s", { name := "s", hostId := "h", createdAt := 0, lastHostPoll := 0,
             currentOffer := none, pendingAnswer := some ("p1", "a1") })]
    "s" "p2" "a2"
    { name := "s", hostId := "h", createdAt := 0, lastHostPoll := 0,
      currentOffer := none, pendingAnswer := some ("p1", "a1") } (by decide)

end KPI
